import Mathlib

/-!
Verification of the sqlite schema model of `python_general_lib`
(`database/sqlite3_wrap/sqlite_structure.py`, `database/sqlite3_wrap/sqlite_connector.py`
and the legacy variant `database/sqlite3/sqlite_structure.py`).

The Python classes are shallowly embedded as Lean structures; every method that
the claims touch is translated into an executable Lean function.  Python
exceptions become `Except` results; the mutating table operations return, in
the error case, the table state at the moment of the raise, so that the
"no partial mutation" claims are statable.
-/

/- ## String helpers mirroring the Python primitives used by the source -/

/-- The single-quote character (used by SQL escaping); written via its code
point to keep the sources free of quote literals. -/
def squoteChar : Char := Char.ofNat 39

/-- `str.upper()` restricted to what the source feeds it (ASCII SQL text). -/
def pyUpper (s : String) : String := String.mk (s.data.map Char.toUpper)

/-- Python whitespace as stripped by `str.strip()` and matched by the regex
class `\s` on the ASCII inputs the source deals with. -/
def isPyWS (c : Char) : Bool :=
  c = ' ' || c = '\t' || c = '\n' || c = '\x0d' || c = '\x0b' || c = '\x0c'

/-- `str.strip()`. -/
def pyStrip (s : String) : String :=
  String.mk (((s.data.dropWhile isPyWS).reverse.dropWhile isPyWS).reverse)

/-- Does `pat` occur as a leading block of `cs`? -/
def isTokAt : List Char → List Char → Bool
  | [], _ => true
  | _ :: _, [] => false
  | p :: ps, c :: cs => p = c && isTokAt ps cs

/-- Python `pat in s` (substring containment). -/
def containsTok (cs : List Char) (pat : List Char) : Bool :=
  match cs with
  | [] => pat.isEmpty
  | _ :: rest => isTokAt pat cs || containsTok rest pat

/-- Fuel-driven worker for `removeTok`; each step consumes one unit of fuel
and at least one character, so `fuel = length` is always enough. -/
def removeTokFuel (p : Char) (ps : List Char) : Nat → List Char → List Char
  | 0, l => l
  | _ + 1, [] => []
  | fuel + 1, c :: rest =>
    if isTokAt (p :: ps) (c :: rest) then
      removeTokFuel p ps fuel ((c :: rest).drop (ps.length + 1))
    else
      c :: removeTokFuel p ps fuel rest

/-- `str.replace(pat, "")` for a nonempty pattern `p :: ps`:
left-to-right, non-overlapping removal of every occurrence. -/
def removeTok (p : Char) (ps : List Char) (l : List Char) : List Char :=
  removeTokFuel p ps l.length l

/-- `str.replace(pat, "")` on `String`s; an empty pattern is the identity
(the source only removes nonempty tokens). -/
def pyRemoveAll (s : String) (pat : String) : String :=
  match pat.data with
  | [] => s
  | p :: ps => String.mk (removeTok p ps s.data)

/-- `str.startswith(pat)`. -/
def pyStartsWith (s pat : String) : Bool := isTokAt pat.data s.data

/-- `str.endswith(pat)`. -/
def pyEndsWith (s pat : String) : Bool := isTokAt pat.data.reverse s.data.reverse

deriving instance DecidableEq for Except

/-- `col.replace(" ", "_")` used when deriving index names. -/
def spacesToUnderscores (s : String) : String :=
  String.mk (s.data.map (fun c => if c = ' ' then '_' else c))

/- ## Value model

`default` on a field is an arbitrary Python value.  The kinds the rendering
code distinguishes are embedded as a tagged union; `float` and `other` carry
the text that Python `str()` produces for them. -/

inductive SQLValue where
  | vNone
  | vBool (b : Bool)
  | vInt (n : Int)
  | vFloat (text : String)
  | vStr (s : String)
  | vOther (text : String)
deriving DecidableEq

/-- `'` → `''` (the escaping step of the string branch). -/
def escapeSingleQuotes (s : String) : String :=
  String.mk (s.data.flatMap (fun c => if c = squoteChar then [squoteChar, squoteChar] else [c]))

/-- The `default_val` cascade of `SQLField.GetCreateStr`
(`sqlite3_wrap/sqlite_structure.py` lines 74-99), in source order:
named temporal keywords, booleans, numbers, parenthesised string
expressions, quoted-and-escaped strings, generic conversion. -/
def renderDefault (d : SQLValue) : String :=
  if d = .vStr "CURRENT_TIMESTAMP" then "CURRENT_TIMESTAMP"
  else if d = .vStr "CURRENT_DATE" then "CURRENT_DATE"
  else if d = .vStr "CURRENT_TIME" then "CURRENT_TIME"
  else if d = .vBool true then "1"
  else if d = .vBool false then "0"
  else
    match d with
    | .vInt n => toString n
    | .vFloat text => text
    | .vStr s =>
      if pyStartsWith s "(" && pyEndsWith s ")" then s
      else String.singleton squoteChar ++ escapeSingleQuotes s ++ String.singleton squoteChar
    | .vOther text => text
    | .vBool _ => ""   -- unreachable: both booleans were handled above
    | .vNone => ""     -- unreachable: the caller guards on `default is not None`

/- ## SQLField (sqlite3_wrap variant) -/

structure SQLField where
  name : String
  data_type_str : String
  is_primary : Bool
  unique : Bool
  not_null : Bool
  default : SQLValue
  check : Option String
deriving DecidableEq

/-- The `subs` list assembled by `SQLField.GetCreateStr` before joining. -/
def SQLField.createSubs (f : SQLField) : List String :=
  (if f.is_primary then ["PRIMARY KEY"] else [])
    ++ (if f.unique then ["UNIQUE"] else [])
    ++ (if f.not_null then ["NOT NULL"] else [])
    ++ (if f.default ≠ .vNone then ["DEFAULT " ++ renderDefault f.default] else [])
    ++ (match f.check with
        | some c => if c ≠ "" then ["CHECK (" ++ c ++ ")"] else []
        | none => [])

/-- `SQLField.GetCreateStr`: the column-definition fragment after the name. -/
def SQLField.GetCreateStr (f : SQLField) : String :=
  if f.createSubs.isEmpty then f.data_type_str
  else f.data_type_str ++ " " ++ String.intercalate " " f.createSubs

/- ## Constraint model (sqlite3_wrap variant) -/

structure ForeignKey where
  local_columns : List String
  ref_table : String
  ref_columns : List String
  on_delete : Option String
  on_update : Option String
deriving DecidableEq

def ForeignKey.GetConstraintStr (fk : ForeignKey) : String :=
  String.intercalate " "
    (["FOREIGN KEY (" ++ String.intercalate ", " fk.local_columns ++ ")",
      "REFERENCES " ++ fk.ref_table ++ "(" ++ String.intercalate ", " fk.ref_columns ++ ")"]
      ++ (match fk.on_delete with
          | some d => if d ≠ "" then ["ON DELETE " ++ d] else []
          | none => [])
      ++ (match fk.on_update with
          | some u => if u ≠ "" then ["ON UPDATE " ++ u] else []
          | none => []))

structure UniqueConstraint where
  columns : List String
  constraint_name : Option String
deriving DecidableEq

def UniqueConstraint.GetConstraintStr (uc : UniqueConstraint) : String :=
  (match uc.constraint_name with
   | some n => if n ≠ "" then "CONSTRAINT " ++ n ++ " " else ""
   | none => "")
    ++ "UNIQUE (" ++ String.intercalate ", " uc.columns ++ ")"

structure PrimaryKeyConstraint where
  columns : List String
  constraint_type : String
deriving DecidableEq

/-- `PrimaryKeyConstraint.GetConstraintStr`; the source raises on an unknown
`constraint_type`, but both constructor sites only produce `"column"` and
`"table"`, so the unknown branch is dead and rendered as `""` here. -/
def PrimaryKeyConstraint.GetConstraintStr (pk : PrimaryKeyConstraint) : String :=
  if pk.constraint_type = "column" then ""
  else if pk.constraint_type = "table" then
    "PRIMARY KEY (" ++ String.intercalate ", " pk.columns ++ ")"
  else ""

structure CheckConstraint where
  expression : String
  constraint_name : Option String
deriving DecidableEq

def CheckConstraint.GetConstraintStr (cc : CheckConstraint) : String :=
  (match cc.constraint_name with
   | some n => if n ≠ "" then "CONSTRAINT " ++ n ++ " " else ""
   | none => "")
    ++ "CHECK (" ++ cc.expression ++ ")"

structure Index where
  columns : List String
  unique : Bool
  create_if_not_exists : Bool
  name : Option String
deriving DecidableEq

/-- Python truthiness of `self.name` (`None` and `""` are falsy). -/
def Index.nameFalsy (idx : Index) : Bool :=
  match idx.name with
  | none => true
  | some s => s = ""

/-- The name `GetCreateSQL` assigns when `self.name` is falsy. -/
def Index.derivedName (idx : Index) (table_name : String) : String :=
  "idx_" ++ table_name ++ "_"
    ++ String.intercalate "_" (idx.columns.map spacesToUnderscores)

/-- `Index.GetCreateSQL` returns the statement and, mirroring the in-place
`self.name = ...` assignment, the index with its name now populated. -/
def Index.GetCreateSQL (idx : Index) (table_name : String) : String × Index :=
  let nm := if idx.nameFalsy then idx.derivedName table_name
            else idx.name.getD ""
  ("CREATE " ++ (if idx.unique then "UNIQUE " else "") ++ "INDEX "
     ++ (if idx.create_if_not_exists then "IF NOT EXISTS " else "")
     ++ nm ++ " ON " ++ table_name
     ++ "(" ++ String.intercalate ", " idx.columns ++ ");",
   { idx with name := some nm })

/- ## The field-string parser (`_ParseFieldString` / `_parse_field_string`)

The two regular expressions of the source are executed by hand-written
scanners with Python `re` semantics on the inputs in question:
`DEFAULT\s+([^,\)]+)` (leftmost match, greedy) and `CHECK\s*\((.+?)\)`
(leftmost match, lazy body, `.` excludes the newline). -/

/-- Try `DEFAULT\s+([^,\)]+)` anchored at the head of `cs`; returns
`(group0, group1)` on success.  When the character class finds nothing after
the maximal whitespace run, the regex engine backtracks `\s+` by one and
captures the final whitespace character. -/
def matchDefaultAt (cs : List Char) : Option (List Char × List Char) :=
  if isTokAt "DEFAULT".data cs then
    let rest := cs.drop 7
    let ws := rest.takeWhile isPyWS
    let afterWs := rest.drop ws.length
    let cap := afterWs.takeWhile (fun c => c ≠ ',' && c ≠ ')')
    if ws.isEmpty then none
    else if !cap.isEmpty then some ("DEFAULT".data ++ ws ++ cap, cap)
    else if 2 ≤ ws.length then some ("DEFAULT".data ++ ws, [ws.getLast!])
    else none
  else none

/-- `re.search` for the DEFAULT clause: leftmost matching position. -/
def searchDefault : List Char → Option (List Char × List Char)
  | [] => none
  | c :: rest =>
    match matchDefaultAt (c :: rest) with
    | some r => some r
    | none => searchDefault rest

/-- The lazy `(.+?)\)` body: the shortest nonempty newline-free run followed
by a closing parenthesis. -/
def lazyBody (body : List Char) : List Char → Option (List Char)
  | [] => none
  | c :: rest =>
    if c = ')' && !body.isEmpty then some body
    else if c = '\n' then none
    else lazyBody (body ++ [c]) rest

/-- Try `CHECK\s*\((.+?)\)` anchored at the head of `cs`; returns the offset
of the captured group from this position together with its length. -/
def matchCheckAt (cs : List Char) : Option (Nat × Nat) :=
  if isTokAt "CHECK".data cs then
    let rest := cs.drop 5
    let ws := rest.takeWhile isPyWS
    match rest.drop ws.length with
    | '(' :: inner =>
      match lazyBody [] inner with
      | some body => some (5 + ws.length + 1, body.length)
      | none => none
    | _ => none
  else none

/-- `re.search` for the CHECK clause: leftmost matching position; returns the
absolute position and length of the captured group. -/
def searchCheck (pos : Nat) : List Char → Option (Nat × Nat)
  | [] => none
  | c :: rest =>
    match matchCheckAt (c :: rest) with
    | some (off, len) => some (pos + off, len)
    | none => searchCheck (pos + 1) rest

/-- The parameter record returned by the field-string parsers. -/
structure FieldParams where
  data_type : String
  unique : Bool
  not_null : Bool
  auto_increment : Bool
  is_primary : Bool
  default : Option String
  check : Option String
deriving DecidableEq

/-- `SQLTable._ParseFieldString` of the `sqlite3_wrap` variant: computes the
flags on the uppercased string, rejects `AUTOINCREMENT`, strips the
recognised tokens, then extracts `DEFAULT` and `CHECK`.  The CHECK expression
is sliced out of the original string at the match positions found in the
processed string, exactly as the source does. -/
def SQLTable.ParseFieldString (type_str : String) : Except String FieldParams :=
  let normalized := pyUpper type_str
  let data_type := String.mk ((pyStrip type_str).data.takeWhile (fun c => c ≠ ' '))
  let uniqueF := containsTok normalized.data "UNIQUE".data
  let notNullF := containsTok normalized.data "NOT NULL".data
  let autoF := containsTok normalized.data "AUTOINCREMENT".data
  let primF := containsTok normalized.data "PRIMARY KEY".data
  if autoF then Except.error "AUTOINCREMENT is not allowed in this framework"
  else
    let n1 := pyRemoveAll (pyRemoveAll (pyRemoveAll (pyRemoveAll normalized
                "UNIQUE") "NOT NULL") "AUTOINCREMENT") "PRIMARY KEY"
    let step2 :=
      match searchDefault n1.data with
      | some (full, cap) => (some (pyStrip (String.mk cap)), pyRemoveAll n1 (String.mk full))
      | none => (none, n1)
    let chk :=
      match searchCheck 0 step2.2.data with
      | some (pos1, len) => some (String.mk ((type_str.data.drop pos1).take len))
      | none => none
    Except.ok { data_type := data_type, unique := uniqueF, not_null := notNullF,
                auto_increment := autoF, is_primary := primF,
                default := step2.1, check := chk }

/-- `SQLTable._parse_field_string` of the legacy `sqlite3` variant: identical
computation but with no rejection — `auto_increment` is simply reported in
the result. -/
def Legacy.parseFieldString (type_str : String) : FieldParams :=
  let normalized := pyUpper type_str
  let data_type := String.mk ((pyStrip type_str).data.takeWhile (fun c => c ≠ ' '))
  let uniqueF := containsTok normalized.data "UNIQUE".data
  let notNullF := containsTok normalized.data "NOT NULL".data
  let autoF := containsTok normalized.data "AUTOINCREMENT".data
  let primF := containsTok normalized.data "PRIMARY KEY".data
  let n1 := pyRemoveAll (pyRemoveAll (pyRemoveAll (pyRemoveAll normalized
              "UNIQUE") "NOT NULL") "AUTOINCREMENT") "PRIMARY KEY"
  let step2 :=
    match searchDefault n1.data with
    | some (full, cap) => (some (pyStrip (String.mk cap)), pyRemoveAll n1 (String.mk full))
    | none => (none, n1)
  let chk :=
    match searchCheck 0 step2.2.data with
    | some (pos1, len) => some (String.mk ((type_str.data.drop pos1).take len))
    | none => none
  { data_type := data_type, unique := uniqueF, not_null := notNullF,
    auto_increment := autoF, is_primary := primF,
    default := step2.1, check := chk }

/- ## SQLTable (sqlite3_wrap variant) -/

/-- The error kinds raised by the table-level operations (the source raises
`ValueError` with a message; the kind and its data are what the messages
carry). -/
inductive TableError where
  | duplicateField (field table : String)
  | primaryKeyConflict (field table : String)
  | primaryKeyExists (table : String)
  | unknownColumn (column : String)
  | columnCountMismatch
  | emptyCheckExpression
  | duplicateIndexName (name : Option String)
  | multipleAutoIncrement
  | autoIncrementNotSolePrimaryKey
deriving DecidableEq

structure SQLTable where
  name : String
  fields : List SQLField
  field_name_dict : List (String × SQLField)
  primary_key : Option PrimaryKeyConstraint
  foreign_keys : List ForeignKey
  unique_constraints : List UniqueConstraint
  check_constraints : List CheckConstraint
  indexes : List Index
deriving DecidableEq

/-- `SQLTable.__init__`. -/
def SQLTable.mkEmpty (name : String) : SQLTable :=
  { name := name, fields := [], field_name_dict := [], primary_key := none,
    foreign_keys := [], unique_constraints := [], check_constraints := [], indexes := [] }

/-- `name in self.field_name_dict` (dict-key membership). -/
def SQLTable.hasFieldName (t : SQLTable) (n : String) : Bool :=
  t.field_name_dict.any (fun kv => kv.1 = n)

/-- The `self.fields.append(field); self.field_name_dict[field.name] = field`
suffix shared by the `AddField` success paths. -/
def SQLTable.appendField (t : SQLTable) (field : SQLField) : SQLTable :=
  { t with
    fields := t.fields ++ [field]
    field_name_dict := t.field_name_dict ++ [(field.name, field)] }

/-- The mutating operations return `Except (TableError × SQLTable) SQLTable`:
on success the updated table, on an exception the error kind together with
the table state at the moment of the raise (so that partial mutation would
be observable). -/
def SQLTable.AddField (t : SQLTable) (field : SQLField) :
    Except (TableError × SQLTable) SQLTable :=
  if t.hasFieldName field.name then Except.error (.duplicateField field.name t.name, t)
  else if field.is_primary then
    match t.primary_key with
    | some _ => Except.error (.primaryKeyConflict field.name t.name, t)
    | none => Except.ok (SQLTable.appendField
        { t with primary_key := some ⟨[field.name], "column"⟩ } field)
  else Except.ok (t.appendField field)

/-- `SQLTable.SetPrimaryKey` (sqlite3_wrap variant: refuses to overwrite). -/
def SQLTable.SetPrimaryKey (t : SQLTable) (columns : List String) :
    Except (TableError × SQLTable) SQLTable :=
  match t.primary_key with
  | some _ => Except.error (.primaryKeyExists t.name, t)
  | none =>
    match columns.find? (fun c => !(t.hasFieldName c)) with
    | some c => Except.error (.unknownColumn c, t)
    | none => Except.ok { t with primary_key := some ⟨columns, "table"⟩ }

def SQLTable.AddForeignKey (t : SQLTable) (local_columns : List String)
    (ref_table : String) (ref_columns : List String)
    (on_delete on_update : Option String) :
    Except (TableError × SQLTable) SQLTable :=
  if local_columns.length ≠ ref_columns.length then
    Except.error (.columnCountMismatch, t)
  else
    match local_columns.find? (fun c => !(t.hasFieldName c)) with
    | some c => Except.error (.unknownColumn c, t)
    | none => Except.ok { t with foreign_keys := t.foreign_keys ++
        [{ local_columns := local_columns, ref_table := ref_table,
           ref_columns := ref_columns, on_delete := on_delete, on_update := on_update }] }

def SQLTable.AddUniqueConstraint (t : SQLTable) (columns : List String)
    (constraint_name : Option String) : Except (TableError × SQLTable) SQLTable :=
  match columns.find? (fun c => !(t.hasFieldName c)) with
  | some c => Except.error (.unknownColumn c, t)
  | none => Except.ok { t with unique_constraints := t.unique_constraints ++
      [{ columns := columns, constraint_name := constraint_name }] }

def SQLTable.AddCheckConstraint (t : SQLTable) (expression : String)
    (constraint_name : Option String) : Except (TableError × SQLTable) SQLTable :=
  if pyStrip expression = "" then
    Except.error (.emptyCheckExpression, t)
  else
    Except.ok { t with check_constraints := t.check_constraints ++
      [{ expression := expression, constraint_name := constraint_name }] }

def SQLTable.AddIndex (t : SQLTable) (columns : List String) (unique : Bool)
    (name : Option String) : Except (TableError × SQLTable) SQLTable :=
  match columns.find? (fun c => !(t.hasFieldName c)) with
  | some c => Except.error (.unknownColumn c, t)
  | none =>
    if t.indexes.any (fun idx => idx.name = name) then
      Except.error (.duplicateIndexName name, t)
    else
      Except.ok { t with indexes := t.indexes ++
        [{ columns := columns, unique := unique, create_if_not_exists := true, name := name }] }

/-- `SQLTable.GetCreateTableSQL`: field definitions, then table-level primary
key (only when it originated at table level), unique constraints, foreign
keys and check constraints, in that fixed order. -/
def SQLTable.GetCreateTableSQL (t : SQLTable) : String :=
  let field_defs := t.fields.map (fun f => f.name ++ " " ++ f.GetCreateStr)
  let constraints :=
    (match t.primary_key with
     | some pk => if pk.constraint_type = "table" then [pk.GetConstraintStr] else []
     | none => [])
    ++ t.unique_constraints.map (fun uc => uc.GetConstraintStr)
    ++ t.foreign_keys.map (fun fk => fk.GetConstraintStr)
    ++ t.check_constraints.map (fun cc => cc.GetConstraintStr)
  "CREATE TABLE IF NOT EXISTS " ++ t.name ++ " (\n  "
    ++ String.intercalate ",\n  " (field_defs ++ constraints) ++ "\n);"

/-- `SQLTable.GetCreateIndexSQLs` (the statement parts; resolving a derived
name is idempotent, so the persisted name does not change later output). -/
def SQLTable.GetCreateIndexSQLs (t : SQLTable) : List String :=
  t.indexes.map (fun idx => (idx.GetCreateSQL t.name).1)

/- ## Legacy variant (`database/sqlite3/sqlite_structure.py`)

The legacy classes `ForeignKey`, `UniqueConstraint`, `CheckConstraint` and
`Index` have exactly the fields and rendering of the sqlite3_wrap ones, so
those embeddings are shared; the classes that differ (`SQLField` with its
`auto_increment` flag, `PrimaryKeyConstraint` without an origin tag, and
`SQLTable` with its permissive `set_primary_key`) are embedded separately. -/

structure Legacy.SQLField where
  name : String
  data_type_str : String
  unique : Bool
  not_null : Bool
  auto_increment : Bool
  default : SQLValue
  check : Option String
deriving DecidableEq

structure Legacy.PrimaryKeyConstraint where
  columns : List String
deriving DecidableEq

structure Legacy.SQLTable where
  name : String
  fields : List Legacy.SQLField
  field_name_dict : List (String × Legacy.SQLField)
  primary_key : Option Legacy.PrimaryKeyConstraint
  foreign_keys : List ForeignKey
  unique_constraints : List UniqueConstraint
  check_constraints : List CheckConstraint
  indexes : List Index
deriving DecidableEq

def Legacy.SQLTable.mkEmpty (name : String) : Legacy.SQLTable :=
  { name := name, fields := [], field_name_dict := [], primary_key := none,
    foreign_keys := [], unique_constraints := [], check_constraints := [], indexes := [] }

def Legacy.SQLTable.hasFieldName (t : Legacy.SQLTable) (n : String) : Bool :=
  t.field_name_dict.any (fun kv => kv.1 = n)

/-- Legacy `add_field`: duplicate-name check only (no primary-key logic). -/
def Legacy.SQLTable.add_field (t : Legacy.SQLTable) (field : Legacy.SQLField) :
    Except (TableError × Legacy.SQLTable) Legacy.SQLTable :=
  if t.hasFieldName field.name then
    Except.error (.duplicateField field.name t.name, t)
  else Except.ok { t with
    fields := t.fields ++ [field]
    field_name_dict := t.field_name_dict ++ [(field.name, field)] }

/-- Legacy `set_primary_key`: validates that the columns exist, then assigns
`self.primary_key` unconditionally — an existing primary key is silently
overwritten. -/
def Legacy.SQLTable.set_primary_key (t : Legacy.SQLTable) (columns : List String) :
    Except (TableError × Legacy.SQLTable) Legacy.SQLTable :=
  match columns.find? (fun c => !(t.hasFieldName c)) with
  | some c => Except.error (.unknownColumn c, t)
  | none => Except.ok { t with primary_key := some ⟨columns⟩ }

def Legacy.SQLTable.add_foreign_key (t : Legacy.SQLTable) (local_columns : List String)
    (ref_table : String) (ref_columns : List String)
    (on_delete on_update : Option String) :
    Except (TableError × Legacy.SQLTable) Legacy.SQLTable :=
  if local_columns.length ≠ ref_columns.length then
    Except.error (.columnCountMismatch, t)
  else
    match local_columns.find? (fun c => !(t.hasFieldName c)) with
    | some c => Except.error (.unknownColumn c, t)
    | none => Except.ok { t with foreign_keys := t.foreign_keys ++
        [{ local_columns := local_columns, ref_table := ref_table,
           ref_columns := ref_columns, on_delete := on_delete, on_update := on_update }] }

def Legacy.SQLTable.add_unique_constraint (t : Legacy.SQLTable) (columns : List String)
    (constraint_name : Option String) :
    Except (TableError × Legacy.SQLTable) Legacy.SQLTable :=
  match columns.find? (fun c => !(t.hasFieldName c)) with
  | some c => Except.error (.unknownColumn c, t)
  | none => Except.ok { t with unique_constraints := t.unique_constraints ++
      [{ columns := columns, constraint_name := constraint_name }] }

def Legacy.SQLTable.add_check_constraint (t : Legacy.SQLTable) (expression : String)
    (constraint_name : Option String) :
    Except (TableError × Legacy.SQLTable) Legacy.SQLTable :=
  if pyStrip expression = "" then
    Except.error (.emptyCheckExpression, t)
  else
    Except.ok { t with check_constraints := t.check_constraints ++
      [{ expression := expression, constraint_name := constraint_name }] }

def Legacy.SQLTable.add_index (t : Legacy.SQLTable) (columns : List String)
    (unique : Bool) (name : Option String) :
    Except (TableError × Legacy.SQLTable) Legacy.SQLTable :=
  match columns.find? (fun c => !(t.hasFieldName c)) with
  | some c => Except.error (.unknownColumn c, t)
  | none =>
    if t.indexes.any (fun idx => idx.name = name) then
      Except.error (.duplicateIndexName name, t)
    else
      Except.ok { t with indexes := t.indexes ++
        [{ columns := columns, unique := unique, create_if_not_exists := true, name := name }] }

/- ## Declarative table definitions (dict descriptions for the V2 format) -/

/-- A Python argument that may be a single column name or a list of them
(the `isinstance(columns, str)` normalisation in the source). -/
inductive ColSpec where
  | one (s : String)
  | many (l : List String)
deriving DecidableEq

def ColSpec.toList : ColSpec → List String
  | .one s => [s]
  | .many l => l

/-- Python truthiness of the value (`if pk:` in the source). -/
def ColSpec.truthy : ColSpec → Bool
  | .one s => s ≠ ""
  | .many l => !l.isEmpty

structure FKDef where
  columns : ColSpec
  ref_table : String
  ref_columns : ColSpec
  on_delete : Option String
  on_update : Option String
deriving DecidableEq

structure UCDef where
  columns : ColSpec
  name : Option String
deriving DecidableEq

structure CCDef where
  expression : String
  name : Option String
deriving DecidableEq

structure IdxDef where
  columns : ColSpec
  unique : Bool
  name : Option String
deriving DecidableEq

/-- The table-definition dictionary (`fields` map in insertion order plus the
optional `constraints` and `indexes` sections). -/
structure TableDef where
  fields : List (String × String)
  primary_key : Option ColSpec
  foreign_keys : List FKDef
  unique_constraints : List UCDef
  check_constraints : List CCDef
  indexes : List IdxDef
deriving DecidableEq

/-- Legacy `SQLTable.CreateFromDictV2`: builds the fields through
`_parse_field_string`/`add_field`, applies the constraint sections, then
performs the step-3 auto-increment validation. -/
def Legacy.SQLTable.CreateFromDictV2 (name : String) (td : TableDef) :
    Except (TableError × Legacy.SQLTable) Legacy.SQLTable := do
  let table := Legacy.SQLTable.mkEmpty name
  let table ← td.fields.foldlM (fun tb fd =>
    let params := Legacy.parseFieldString fd.2
    tb.add_field
      { name := fd.1, data_type_str := params.data_type, unique := params.unique,
        not_null := params.not_null, auto_increment := params.auto_increment,
        default := (match params.default with | some s => .vStr s | none => .vNone),
        check := params.check }) table
  let table ←
    match td.primary_key with
    | some pk => if pk.truthy then table.set_primary_key pk.toList else pure table
    | none => pure table
  let table ← td.foreign_keys.foldlM (fun tb fk =>
    tb.add_foreign_key fk.columns.toList fk.ref_table fk.ref_columns.toList
      fk.on_delete fk.on_update) table
  let table ← td.unique_constraints.foldlM (fun tb uc =>
    tb.add_unique_constraint uc.columns.toList uc.name) table
  let table ← td.check_constraints.foldlM (fun tb cc =>
    tb.add_check_constraint cc.expression cc.name) table
  let table ← td.indexes.foldlM (fun tb ix =>
    tb.add_index ix.columns.toList ix.unique ix.name) table
  let autos := table.fields.filter (fun f => f.auto_increment)
  match autos with
  | [] => pure table
  | af :: moreAutos =>
    if !moreAutos.isEmpty then
      throw (.multipleAutoIncrement, table)
    let table :=
      if table.primary_key.isNone then { table with primary_key := some ⟨[af.name]⟩ }
      else table
    if (table.primary_key.map Legacy.PrimaryKeyConstraint.columns).getD [] ≠ [af.name] then
      throw (.autoIncrementNotSolePrimaryKey, table)
    pure table

/- ## SQLDatabase (sqlite3_wrap variant) -/

inductive DBError where
  | duplicateTable (name : String)
  | foreignKeyCycle
  | danglingForeignKey (table ref_table : String)
deriving DecidableEq

structure SQLDatabase where
  tables : List SQLTable
deriving DecidableEq

/-- `name in self.table_name_dict`: the dictionary and the dependency graph
are maintained by `AddTable` alone, so they are embedded as functions of the
table list (which determines them on every reachable state). -/
def SQLDatabase.hasTable (db : SQLDatabase) (n : String) : Bool :=
  db.tables.any (fun t => t.name = n)

/-- `table_name_dict` lookup / `GetTable`. -/
def SQLDatabase.GetTable (db : SQLDatabase) (name : String) : Option SQLTable :=
  db.tables.find? (fun t => t.name = name)

def SQLDatabase.AddTable (db : SQLDatabase) (t : SQLTable) : Except DBError SQLDatabase :=
  if db.hasTable t.name then Except.error (.duplicateTable t.name)
  else Except.ok ⟨db.tables ++ [t]⟩

/-- `self.foreign_key_graph`: for every table `t` and every foreign key of
`t` with `ref_table = r`, the entry `t.name` is appended under key `r` — in
table-insertion order, then foreign-key order, exactly as `AddTable` fills
the `defaultdict`. -/
def fkGraph (db : SQLDatabase) (r : String) : List String :=
  db.tables.flatMap (fun t =>
    (t.foreign_keys.filter (fun fk => fk.ref_table = r)).map (fun _ => t.name))

/- ### `CheckForeignKeyCycles`: depth-first search with a recursion stack

The recursion of the Python `dfs` closure is driven by fuel; the lemmas
below show that `fuel = number of tables` can never run out, because every
visit permanently adds an unvisited node to `visited`. -/

/-- The `for neighbor in graph.get(n, [])` loop body of `dfs`.  `stack'` is
the current recursion stack (the active call path); `rec` performs the
recursive visit at the current depth. -/
def dfsLoop (rec : List String → String → Bool × List String)
    (stack' : List String) : List String → List String → Bool × List String
  | vis, [] => (false, vis)
  | vis, nb :: rest =>
    if nb ∈ vis then
      if nb ∈ stack' then (true, vis) else dfsLoop rec stack' vis rest
    else
      match rec vis nb with
      | (true, w) => (true, w)
      | (false, w) => dfsLoop rec stack' w rest

/-- One `dfs(n)` call: mark `n` visited, push it on the recursion stack, scan
its neighbours; popping the stack on a `False` return is implicit in the
call structure. -/
def dfsVisit (g : String → List String) : Nat → List String → List String → String →
    Bool × List String
  | 0, _, vis, _ => (true, vis)
  | fuel + 1, stack, vis, n =>
    dfsLoop (fun vis' m => dfsVisit g fuel (n :: stack) vis' m) (n :: stack) (n :: vis) (g n)

/-- The `for table in self.tables` driver loop. -/
def checkRoots (g : String → List String) (fuel : Nat) :
    List SQLTable → List String → Bool
  | [], _ => false
  | t :: rest, vis =>
    if t.name ∈ vis then checkRoots g fuel rest vis
    else
      match dfsVisit g fuel [] vis t.name with
      | (true, _) => true
      | (false, w) => checkRoots g fuel rest w

def SQLDatabase.CheckForeignKeyCycles (db : SQLDatabase) : Bool :=
  checkRoots (fkGraph db) db.tables.length db.tables []

/- ### `GenerateSQLScript`: Kahn's algorithm and script assembly -/

/-- `in_degree` after the initialisation loops: the number of foreign keys
declared by the table of that name. -/
def SQLDatabase.initialInDegree (db : SQLDatabase) (n : String) : Int :=
  Int.ofNat (((db.tables.filter (fun t => t.name = n)).map
    (fun t => t.foreign_keys.length)).sum)

/-- The `for dependent in dependency_graph.get(table.name, [])` loop:
decrement each dependent's in-degree, enqueueing a table the moment its
in-degree reaches zero. -/
def processDependents (db : SQLDatabase) :
    List String → (String → Int) → List SQLTable → (String → Int) × List SQLTable
  | [], indeg, queue => (indeg, queue)
  | d :: rest, indeg, queue =>
    let indeg' := fun x => if x = d then indeg x - 1 else indeg x
    let queue' :=
      if indeg' d = 0 then
        match db.GetTable d with
        | some tb => queue ++ [tb]
        | none => queue
      else queue
    processDependents db rest indeg' queue'

/-- The `while queue:` loop (pop at the front, append at the back).  Fuel is
an upper bound on the number of pops; the lemmas below show the chosen fuel
never runs out, matching the unbounded Python loop. -/
def kahnLoop (db : SQLDatabase) : Nat → List SQLTable → List SQLTable → (String → Int) →
    List SQLTable
  | 0, sorted, _, _ => sorted
  | fuel + 1, sorted, queue, indeg =>
    match queue with
    | [] => sorted
    | t :: rest =>
      let step := processDependents db (fkGraph db t.name) indeg rest
      kahnLoop db fuel (sorted ++ [t]) step.2 step.1

/-- The creation order computed inside `GenerateSQLScript`: the Kahn output
followed by the defensive fallback appending, in original order, any table
the sort did not reach. -/
def SQLDatabase.GenerateCreationOrder (db : SQLDatabase) : List SQLTable :=
  let indeg0 := db.initialInDegree
  let queue0 := db.tables.filter (fun t => indeg0 t.name = 0)
  let sorted := kahnLoop db (2 * db.tables.length + 1) [] queue0 indeg0
  sorted ++ db.tables.filter (fun t => t ∉ sorted)

/-- `GenerateSQLScript`: cycle check, then all `CREATE TABLE` statements in
creation order, then all `CREATE INDEX` statements. -/
def SQLDatabase.GenerateSQLScript (db : SQLDatabase) : Except DBError String :=
  if db.CheckForeignKeyCycles then Except.error .foreignKeyCycle
  else
    let sorted := db.GenerateCreationOrder
    Except.ok (String.intercalate "\n\n"
      (sorted.map (fun t => t.GetCreateTableSQL)
        ++ sorted.flatMap (fun t => t.GetCreateIndexSQLs)))

/-- `ValidateStructure`: cycle check, then the first dangling foreign-key
reference in table/foreign-key order. -/
def SQLDatabase.ValidateStructure (db : SQLDatabase) : Except DBError Unit :=
  if db.CheckForeignKeyCycles then Except.error .foreignKeyCycle
  else
    match db.tables.findSome? (fun t => t.foreign_keys.findSome? (fun fk =>
        if !db.hasTable fk.ref_table then some (t.name, fk.ref_table) else none)) with
    | some pr => Except.error (.danglingForeignKey pr.1 pr.2)
    | none => Except.ok ()

/- ## Connector / migration engine (`sqlite3_wrap/sqlite_connector.py`)

The live database is abstracted by the metadata the connector introspects:
table names and per-table column name/declared-type pairs.  Statement
execution is modelled by collecting the statements that `conn.execute`
would receive, and logger warnings by a warning list. -/

structure LiveTable where
  name : String
  columns : List (String × String)
deriving DecidableEq

structure LiveDB where
  tables : List LiveTable
deriving DecidableEq

def LiveDB.tableNames (l : LiveDB) : List String := l.tables.map (fun t => t.name)

def LiveDB.columnsOf (l : LiveDB) (tname : String) : List (String × String) :=
  match l.tables.find? (fun t => t.name = tname) with
  | some lt => lt.columns
  | none => []

/-- `_GetExistingFields`: the live columns with their types uppercased. -/
def GetExistingFields (live : LiveDB) (tname : String) : List (String × String) :=
  (live.columnsOf tname).map (fun nc => (nc.1, pyUpper nc.2))

inductive ConnStmt where
  | alterAdd (table field sql : String)
  | createTable (table sql : String)
  | createIndexStmt (table sql : String)
deriving DecidableEq

inductive ConnWarning where
  | typeMismatch (table field actual required : String)
  | deprecatedTable (table : String)
deriving DecidableEq

/-- `_ValidateTableStructure`: first the `ALTER TABLE ... ADD COLUMN` pass
over the declared fields missing live, then the type-mismatch warning pass
over the declared fields present live. -/
def ValidateTableStructure (live : LiveDB) (t : SQLTable) :
    List ConnStmt × List ConnWarning :=
  let existing := GetExistingFields live t.name
  let names := existing.map Prod.fst
  let adds := (t.fields.filter (fun f => !names.contains f.name)).map (fun f =>
    ConnStmt.alterAdd t.name f.name
      ("ALTER TABLE " ++ t.name ++ " ADD COLUMN " ++ f.name ++ " " ++ f.GetCreateStr))
  let warns := (t.fields.filter (fun f => names.contains f.name)).filterMap (fun f =>
    match existing.find? (fun nc => nc.1 = f.name) with
    | some nc =>
      if nc.2 ≠ pyUpper f.data_type_str then
        some (ConnWarning.typeMismatch t.name f.name nc.2 (pyUpper f.data_type_str))
      else none
    | none => none)
  (adds, warns)

/-- `_CreateTable`: the `CREATE TABLE` statement followed by the table's
index statements. -/
def CreateTableStmts (t : SQLTable) : List ConnStmt :=
  ConnStmt.createTable t.name t.GetCreateTableSQL
    :: t.GetCreateIndexSQLs.map (fun s => ConnStmt.createIndexStmt t.name s)

/-- `TableValidation`: per declared table, migrate (live) or create (absent);
afterwards warn about live tables absent from the declared structure,
`sqlite_sequence` excepted. -/
def TableValidation (db : SQLDatabase) (live : LiveDB) :
    List ConnStmt × List ConnWarning :=
  let existing_tables := live.tableNames
  let stmts := db.tables.flatMap (fun t =>
    if existing_tables.contains t.name then (ValidateTableStructure live t).1
    else CreateTableStmts t)
  let warns := db.tables.flatMap (fun t =>
    if existing_tables.contains t.name then (ValidateTableStructure live t).2
    else [])
  let deprecated := (existing_tables.filter (fun n =>
    !(db.tables.map (fun t => t.name)).contains n && n != "sqlite_sequence")).map
    ConnWarning.deprecatedTable
  (stmts, warns ++ deprecated)

/- ### Frame model for the connector's private structure copy

`SQLite3Connector.__init__` stores `copy.deepcopy(structure)`: a fully
disjoint object graph at a fresh address.  The heap maps addresses to
`SQLDatabase` values; the connector operations only ever write through the
connector's own address (`self.structure`). -/

def Heap := Nat → SQLDatabase

inductive ConnOp where
  | connectOp
  | tableValidationOp (live : LiveDB)
  | addTableOp (t : SQLTable)
  | loadStructureOp (loaded : SQLDatabase)

/-- The heap effect of one connector operation: `Connect` runs DDL against
the file but never writes the structure; `TableValidation` only reads it;
`AddTable` mutates the connector's structure through `self.structure` (no
mutation when `AddTable` raises); `LoadStructureFromDatabase` rebinds
`self.structure` to the freshly introspected database. -/
def connStep (addr : Nat) (h : Heap) : ConnOp → Heap
  | .connectOp => h
  | .tableValidationOp _ => h
  | .addTableOp t => fun a =>
      if a = addr then
        match (h addr).AddTable t with
        | .ok db' => db'
        | .error _ => h addr
      else h a
  | .loadStructureOp loaded => fun a => if a = addr then loaded else h a

def connRun (addr : Nat) : Heap → List ConnOp → Heap
  | h, [] => h
  | h, op :: ops => connRun addr (connStep addr h op) ops

/-- `__init__`: allocate a fresh address holding a copy of the caller's
structure value. -/
def connectorInit (h : Heap) (caller fresh : Nat) : Heap :=
  fun a => if a = fresh then h caller else h a

/- ## Specification-side notions used by the theorems -/

/-- An edge of the stored dependency graph: `b ∈ foreign_key_graph[a]`,
i.e. the table named `b` declares a foreign key whose `ref_table` is `a`. -/
def gEdge (g : String → List String) (a b : String) : Prop := b ∈ g a

/-- The graph contains a (directed, nonempty) cycle. -/
def HasCycleG (g : String → List String) : Prop :=
  ∃ n, Relation.TransGen (gEdge g) n n

/-- The database's foreign-key graph contains a cycle. -/
def SQLDatabase.HasForeignKeyCycle (db : SQLDatabase) : Prop :=
  HasCycleG (fkGraph db)

/-- A ranking certificate for acyclicity on the node set `B`: every
neighbour stays in `B` and strictly decreases the rank. -/
def GoodRank (g : String → List String) (B : String → Prop) (r : String → Nat) : Prop :=
  ∀ m, B m → ∀ k ∈ g m, B k ∧ r k < r m

/-- The finished ("black") nodes of the DFS: visited and not on the
recursion stack. -/
def blackSet (vis stack : List String) : String → Prop :=
  fun m => m ∈ vis ∧ m ∉ stack

/-- The number of foreign keys of `t` whose target is not yet emitted. -/
def SQLTable.pending (sortedNames : List String) (t : SQLTable) : Nat :=
  t.foreign_keys.countP (fun fk => !sortedNames.contains fk.ref_table)

/-- Every foreign key of every table resolves to a table of the database. -/
def SQLDatabase.Resolved (db : SQLDatabase) : Prop :=
  ∀ t ∈ db.tables, ∀ fk ∈ t.foreign_keys,
    fk.ref_table ∈ db.tables.map (fun u => u.name)

/- ## Concrete fixtures for counterexamples and witnesses -/

/-- A plain column with no flags. -/
def mkField (name ty : String) : SQLField :=
  { name := name, data_type_str := ty, is_primary := false, unique := false,
    not_null := false, default := .vNone, check := none }

/-- A table literal whose `field_name_dict` matches its field list (the
state `__init__` + `AddField` produces). -/
def mkTable (name : String) (fields : List SQLField) (fks : List ForeignKey) : SQLTable :=
  { name := name, fields := fields,
    field_name_dict := fields.map (fun f => (f.name, f)), primary_key := none,
    foreign_keys := fks, unique_constraints := [], check_constraints := [],
    indexes := [] }

def exTable : SQLTable := mkTable "t" [mkField "a" "INTEGER", mkField "b" "TEXT"] []

def exTablePK : SQLTable := { exTable with primary_key := some ⟨["a"], "table"⟩ }

def exTableIdx : SQLTable :=
  { exTable with indexes := [⟨["a"], false, true, none⟩] }

def lfA : Legacy.SQLField :=
  { name := "a", data_type_str := "INTEGER", unique := false, not_null := false,
    auto_increment := false, default := .vNone, check := none }

def lfB : Legacy.SQLField := { lfA with name := "b", data_type_str := "TEXT" }

/-- A legacy table that already carries a primary key on column `a`. -/
def exLTablePK : Legacy.SQLTable :=
  { name := "t", fields := [lfA, lfB],
    field_name_dict := [("a", lfA), ("b", lfB)],
    primary_key := some ⟨["a"]⟩, foreign_keys := [], unique_constraints := [],
    check_constraints := [], indexes := [] }

/-- The declarative definition `{"id": "INTEGER PRIMARY KEY AUTOINCREMENT"}`. -/
def autoTD : TableDef :=
  { fields := [("id", "INTEGER PRIMARY KEY AUTOINCREMENT")], primary_key := none,
    foreign_keys := [], unique_constraints := [], check_constraints := [],
    indexes := [] }

/-- Four tables inserted as `[X, Y, A, B]` where `X` references `B` and `Y`
references `A`; `X` and `Y` both have in-degree one. -/
def tblX : SQLTable :=
  mkTable "X" [mkField "bid" "INTEGER"] [⟨["bid"], "B", ["id"], none, none⟩]
def tblY : SQLTable :=
  mkTable "Y" [mkField "aid" "INTEGER"] [⟨["aid"], "A", ["id"], none, none⟩]
def tblA : SQLTable := mkTable "A" [mkField "id" "INTEGER"] []
def tblB : SQLTable := mkTable "B" [mkField "id" "INTEGER"] []
def dbTie : SQLDatabase := ⟨[tblX, tblY, tblA, tblB]⟩

/-- The spec's concrete scenario: `posts` references `users`, inserted as
`[posts, users]`. -/
def tblUsers : SQLTable := mkTable "users" [mkField "id" "INTEGER"] []
def tblPosts : SQLTable :=
  mkTable "posts" [mkField "id" "INTEGER", mkField "author_id" "INTEGER"]
    [⟨["author_id"], "users", ["id"], none, none⟩]
def dbPU : SQLDatabase := ⟨[tblPosts, tblUsers]⟩

/-- A one-table database whose table references itself. -/
def tblSelf : SQLTable :=
  mkTable "s" [mkField "id" "INTEGER", mkField "par" "INTEGER"]
    [⟨["par"], "s", ["id"], none, none⟩]
def dbSelf : SQLDatabase := ⟨[tblSelf]⟩

/-- A two-table cycle living in a disconnected component after a plain
table. -/
def tblPlain : SQLTable := mkTable "plain" [mkField "id" "INTEGER"] []
def tblCycA : SQLTable :=
  mkTable "cycA" [mkField "b_id" "INTEGER"] [⟨["b_id"], "cycB", ["id"], none, none⟩]
def tblCycB : SQLTable :=
  mkTable "cycB" [mkField "a_id" "INTEGER"] [⟨["a_id"], "cycA", ["id"], none, none⟩]
def dbDisc : SQLDatabase := ⟨[tblPlain, tblCycA, tblCycB]⟩

/-- A database with a dangling foreign-key reference. -/
def tblDang : SQLTable :=
  mkTable "a" [mkField "x" "INTEGER"] [⟨["x"], "missing", ["id"], none, none⟩]
def dbDangling : SQLDatabase := ⟨[tblDang]⟩

/-- Migration fixtures: table `m` exists live but lacks column `extra` and
carries type `INT` where `typed` declares `TEXT`; table `n` is absent live;
live table `old` is not declared. -/
def c7m : SQLTable :=
  mkTable "m" [mkField "id" "INTEGER", mkField "extra" "TEXT", mkField "typed" "TEXT"] []
def c7n : SQLTable :=
  { mkTable "n" [mkField "id" "INTEGER"] [] with indexes := [⟨["id"], false, true, none⟩] }
def c7db : SQLDatabase := ⟨[c7m, c7n]⟩
def c7live : LiveDB :=
  ⟨[⟨"m", [("id", "INTEGER"), ("typed", "INT")]⟩, ⟨"old", [("x", "INT")]⟩]⟩

/-- A heap whose address 0 holds a nonempty caller structure. -/
def heap0 : Heap := fun a => if a = 0 then dbPU else ⟨[]⟩

/-- The table a statement targets. -/
def ConnStmt.stmtTable : ConnStmt → String
  | .alterAdd tb _ _ => tb
  | .createTable tb _ => tb
  | .createIndexStmt tb _ => tb

/-- Is this statement the `ALTER TABLE tn ADD COLUMN fn ...` statement? -/
def ConnStmt.isAlterFor (tn fn : String) : ConnStmt → Bool
  | .alterAdd tb fb _ => tb == tn && fb == fn
  | _ => false

/-- Is this statement the `CREATE TABLE tn ...` statement? -/
def ConnStmt.isCreateFor (tn : String) : ConnStmt → Bool
  | .createTable tb _ => tb == tn
  | _ => false

/-- The table a warning concerns. -/
def ConnWarning.warnTable : ConnWarning → String
  | .typeMismatch tb _ _ _ => tb
  | .deprecatedTable tb => tb

/-- Is this warning the type-mismatch warning for `tn.fn`? -/
def ConnWarning.isMismatchFor (tn fn : String) : ConnWarning → Bool
  | .typeMismatch tb fb _ _ => tb == tn && fb == fn
  | _ => false

/-- The number of graph nodes not yet visited: the DFS termination measure. -/
def nodeBound (NL vis : List String) : Nat :=
  (NL.toFinset \ vis.toFinset).card

/-- Maximum of a list of naturals (`0` for the empty list). -/
def natMaxList (l : List Nat) : Nat := l.foldr max 0

/-- The number of foreign keys of `u` referencing `r`. -/
def SQLTable.countFksTo (u : SQLTable) (r : String) : Nat :=
  u.foreign_keys.countP (fun fk => fk.ref_table == r)

/-- The Kahn-loop termination potential: how many table names still have a
positive in-degree. -/
def zPot (db : SQLDatabase) (indeg : String → Int) : Nat :=
  ((db.tables.map (fun t => t.name)).toFinset.filter (fun n => 0 < indeg n)).card

/-- The loop invariant of the topological sort in `GenerateSQLScript`:
(a) the in-degree of each table equals its count of not-yet-emitted
foreign-key targets; (b) emitted and queued tables belong to the database;
(c) their names are pairwise distinct; (d) queued tables have no pending
targets; (e) every emitted table's targets were emitted strictly before it;
(f) every table with no pending targets has been emitted or queued. -/
def KInv (db : SQLDatabase) (sorted queue : List SQLTable) (indeg : String → Int) : Prop :=
  (∀ u ∈ db.tables, indeg u.name = (u.pending (sorted.map (fun t => t.name)) : Int))
  ∧ (∀ u ∈ sorted ++ queue, u ∈ db.tables)
  ∧ ((sorted ++ queue).map (fun t => t.name)).Nodup
  ∧ (∀ u ∈ queue, u.pending (sorted.map (fun t => t.name)) = 0)
  ∧ (∀ i : Fin sorted.length, ∀ fk ∈ (sorted.get i).foreign_keys,
      fk.ref_table ∈ (sorted.take i).map (fun t => t.name))
  ∧ (∀ u ∈ db.tables, u.pending (sorted.map (fun t => t.name)) = 0 →
      u.name ∈ (sorted ++ queue).map (fun t => t.name))

/- # Theorems -/

/-- C4: for every field with a non-null default, the rendered column
definition applies the default-rendering rules in the source's priority
order: the three temporal keywords pass through verbatim and unquoted;
`true`/`false` render as `1`/`0`; ints and floats render as their decimal
text; a parenthesised string passes through unescaped; any other string is
single-quote-doubled and wrapped in single quotes (so `hello's` renders as
`'hello''s'`); other values render via their generic string conversion; and
the `DEFAULT <rendered>` fragment appears in the column definition. -/
theorem C4_default_rendering :
    (renderDefault (.vStr "CURRENT_TIMESTAMP") = "CURRENT_TIMESTAMP"
      ∧ renderDefault (.vStr "CURRENT_DATE") = "CURRENT_DATE"
      ∧ renderDefault (.vStr "CURRENT_TIME") = "CURRENT_TIME")
    ∧ (renderDefault (.vBool true) = "1" ∧ renderDefault (.vBool false) = "0")
    ∧ (∀ n : Int, renderDefault (.vInt n) = toString n)
    ∧ (∀ text : String, renderDefault (.vFloat text) = text)
    ∧ (∀ s : String, pyStartsWith s "(" = true → pyEndsWith s ")" = true →
        renderDefault (.vStr s) = s)
    ∧ (∀ s : String, s ≠ "CURRENT_TIMESTAMP" → s ≠ "CURRENT_DATE" →
        s ≠ "CURRENT_TIME" → ¬(pyStartsWith s "(" = true ∧ pyEndsWith s ")" = true) →
        renderDefault (.vStr s) =
          String.singleton squoteChar ++ escapeSingleQuotes s ++ String.singleton squoteChar)
    ∧ (∀ text : String, renderDefault (.vOther text) = text)
    ∧ (∀ f : SQLField, f.default ≠ .vNone →
        ("DEFAULT " ++ renderDefault f.default) ∈ f.createSubs)
    ∧ renderDefault (.vStr (String.mk ['h', 'e', 'l', 'l', 'o', squoteChar, 's']))
        = String.mk [squoteChar, 'h', 'e', 'l', 'l', 'o', squoteChar, squoteChar, 's', squoteChar] := by
  refine ⟨⟨by decide, by decide, by decide⟩, ⟨by decide, by decide⟩, ?_, ?_, ?_, ?_, ?_, ?_, by decide⟩
  · intro n; simp [renderDefault]
  · intro text; simp [renderDefault]
  · intro s h1 h2
    have e1 : s ≠ "CURRENT_TIMESTAMP" := by rintro rfl; exact absurd h1 (by decide)
    have e2 : s ≠ "CURRENT_DATE" := by rintro rfl; exact absurd h1 (by decide)
    have e3 : s ≠ "CURRENT_TIME" := by rintro rfl; exact absurd h1 (by decide)
    simp [renderDefault, e1, e2, e3, h1, h2]
  · intro s e1 e2 e3 hpar
    have hb : (pyStartsWith s "(" && pyEndsWith s ")") = false := by
      cases hA : pyStartsWith s "(" with
      | false => simp [hA]
      | true =>
        cases hB : pyEndsWith s ")" with
        | false => simp [hA, hB]
        | true => exact absurd ⟨hA, hB⟩ hpar
    simp [renderDefault, e1, e2, e3, hb]
  · intro text; simp [renderDefault]
  · intro f h
    simp [SQLField.createSubs, h]

/-- C4 witness: the rules applied at concrete inputs. -/
theorem C4_witness :
    renderDefault (.vStr "(abc())") = "(abc())"
    ∧ renderDefault (.vInt (-5)) = "-5" := by
  constructor
  · exact C4_default_rendering.2.2.2.2.1 "(abc())" (by decide) (by decide)
  · exact (C4_default_rendering.2.2.1 (-5)).trans (by decide)

/-- C5: every mutating table operation is atomic — whenever `AddField`,
`SetPrimaryKey`, `AddForeignKey`, `AddUniqueConstraint`,
`AddCheckConstraint` or `AddIndex` raises, the table state carried out of
the raise is exactly the table before the call (no partial mutation of any
component). -/
theorem C5_mutation_atomic (t : SQLTable) :
    (∀ f e t', t.AddField f = Except.error (e, t') → t' = t)
    ∧ (∀ cols e t', t.SetPrimaryKey cols = Except.error (e, t') → t' = t)
    ∧ (∀ lc rt rc od ou e t',
        t.AddForeignKey lc rt rc od ou = Except.error (e, t') → t' = t)
    ∧ (∀ cols nm e t', t.AddUniqueConstraint cols nm = Except.error (e, t') → t' = t)
    ∧ (∀ expr nm e t', t.AddCheckConstraint expr nm = Except.error (e, t') → t' = t)
    ∧ (∀ cols u nm e t', t.AddIndex cols u nm = Except.error (e, t') → t' = t) := by
  refine ⟨?_, ?_, ?_, ?_, ?_, ?_⟩
  · intro f e t' h
    unfold SQLTable.AddField at h
    split at h
    · simp only [Except.error.injEq, Prod.mk.injEq] at h
      exact h.2.symm
    · split at h
      · split at h
        · simp only [Except.error.injEq, Prod.mk.injEq] at h
          exact h.2.symm
        · simp at h
      · simp at h
  · intro cols e t' h
    unfold SQLTable.SetPrimaryKey at h
    split at h
    · simp only [Except.error.injEq, Prod.mk.injEq] at h
      exact h.2.symm
    · split at h
      · simp only [Except.error.injEq, Prod.mk.injEq] at h
        exact h.2.symm
      · simp at h
  · intro lc rt rc od ou e t' h
    unfold SQLTable.AddForeignKey at h
    split at h
    · simp only [Except.error.injEq, Prod.mk.injEq] at h
      exact h.2.symm
    · split at h
      · simp only [Except.error.injEq, Prod.mk.injEq] at h
        exact h.2.symm
      · simp at h
  · intro cols nm e t' h
    unfold SQLTable.AddUniqueConstraint at h
    split at h
    · simp only [Except.error.injEq, Prod.mk.injEq] at h
      exact h.2.symm
    · simp at h
  · intro expr nm e t' h
    unfold SQLTable.AddCheckConstraint at h
    split at h
    · simp only [Except.error.injEq, Prod.mk.injEq] at h
      exact h.2.symm
    · simp at h
  · intro cols u nm e t' h
    unfold SQLTable.AddIndex at h
    split at h
    · simp only [Except.error.injEq, Prod.mk.injEq] at h
      exact h.2.symm
    · split at h
      · simp only [Except.error.injEq, Prod.mk.injEq] at h
        exact h.2.symm
      · simp at h

/-- C5 witness: a duplicate-field error at a concrete table, with the
carried state shown (through the theorem) to equal the original table. -/
theorem C5_witness :
    exTable.AddField (mkField "a" "INTEGER") =
      Except.error (.duplicateField "a" "t", exTable)
    ∧ exTable = exTable := by
  refine ⟨by decide, ?_⟩
  exact (C5_mutation_atomic exTable).1 (mkField "a" "INTEGER")
    (.duplicateField "a" "t") exTable (by decide)

/-- C6 counterexample: the legacy variant's `set_primary_key` (cited by the
claim) does not raise when a primary key already exists — it silently
overwrites the existing declaration. -/
theorem C6_counterexample :
    exLTablePK.primary_key = some ⟨["a"]⟩
    ∧ exLTablePK.set_primary_key ["b"] =
        Except.ok { exLTablePK with primary_key := some ⟨["b"]⟩ } := by
  constructor
  · decide
  · decide

/-- C6 amended: in the `sqlite3_wrap` variant, `AddField` with a
self-declared primary field raises `PrimaryKeyConflict` when a primary key
(of either origin) exists, and `SetPrimaryKey` raises when a primary key
exists; the legacy `sqlite3` variant's `set_primary_key`, however, silently
overwrites any existing primary-key declaration (and its `add_field`
performs no primary-key check at all). -/
theorem C6_amended (t : SQLTable) (tl : Legacy.SQLTable) :
    (∀ f : SQLField, f.is_primary = true → t.primary_key.isSome = true →
        t.hasFieldName f.name = false →
        t.AddField f = Except.error (.primaryKeyConflict f.name t.name, t))
    ∧ (∀ cols, t.primary_key.isSome = true →
        t.SetPrimaryKey cols = Except.error (.primaryKeyExists t.name, t))
    ∧ (∀ cols, (∀ c ∈ cols, tl.hasFieldName c = true) →
        tl.set_primary_key cols = Except.ok { tl with primary_key := some ⟨cols⟩ }) := by
  refine ⟨?_, ?_, ?_⟩
  · intro f hp hpk hno
    obtain ⟨pk, hpkeq⟩ := Option.isSome_iff_exists.mp hpk
    unfold SQLTable.AddField
    simp [hno, hp, hpkeq]
  · intro cols hpk
    obtain ⟨pk, hpkeq⟩ := Option.isSome_iff_exists.mp hpk
    unfold SQLTable.SetPrimaryKey
    simp [hpkeq]
  · intro cols hall
    unfold Legacy.SQLTable.set_primary_key
    have : cols.find? (fun c => !(tl.hasFieldName c)) = none := by
      rw [List.find?_eq_none]
      intro c hc
      simp [hall c hc]
    simp [this]

/-- C6 witness: the wrap variant rejects a second primary key while the
legacy variant overwrites, at concrete tables. -/
theorem C6_witness :
    exTablePK.SetPrimaryKey ["b"] =
      Except.error (.primaryKeyExists "t", exTablePK)
    ∧ exLTablePK.set_primary_key ["b"] =
      Except.ok { exLTablePK with primary_key := some ⟨["b"]⟩ } := by
  constructor
  · exact (C6_amended exTablePK exLTablePK).2.1 ["b"] (by decide)
  · exact (C6_amended exTablePK exLTablePK).2.2 ["b"] (by decide)

/-- C8 counterexample: the legacy variant's `_parse_field_string` (cited by
the claim) accepts `AUTOINCREMENT` without error, and the legacy
`CreateFromDictV2` then constructs a field carrying the auto-increment
flag from the declarative description. -/
theorem C8_counterexample :
    (Legacy.parseFieldString "INTEGER PRIMARY KEY AUTOINCREMENT").auto_increment = true
    ∧ ((match Legacy.SQLTable.CreateFromDictV2 "users" autoTD with
        | .ok tbl => tbl.fields.any (fun f => f.auto_increment)
        | .error _ => false) = true) := by
  constructor
  · decide
  · decide

/-- C8 amended: the `sqlite3_wrap` parser rejects every type string whose
uppercasing contains `AUTOINCREMENT` (hence any letter case) with the
source's error; the legacy `sqlite3` parser never rejects — it reports the
flag in its result, and a field carrying it can be constructed. -/
theorem C8_amended :
    (∀ s : String, containsTok (pyUpper s).data "AUTOINCREMENT".data = true →
        SQLTable.ParseFieldString s =
          Except.error "AUTOINCREMENT is not allowed in this framework")
    ∧ (∀ s : String, (Legacy.parseFieldString s).auto_increment =
        containsTok (pyUpper s).data "AUTOINCREMENT".data) := by
  constructor
  · intro s h
    unfold SQLTable.ParseFieldString
    simp [h]
  · intro s
    rfl

/-- C8 witness: the wrap parser rejects a lowercase spelling. -/
theorem C8_witness :
    SQLTable.ParseFieldString "integer autoincrement" =
      Except.error "AUTOINCREMENT is not allowed in this framework" :=
  C8_amended.1 "integer autoincrement" (by decide)

/-- C9 counterexample: two unnamed indexes on different column lists have
different derived names (so the claim says the second is appended), yet
`AddIndex` raises a duplicate-index-name error because it compares the
stored names, which are both `None`. -/
theorem C9_counterexample :
    Index.derivedName ⟨["a"], false, true, none⟩ "t"
      ≠ Index.derivedName ⟨["b"], false, true, none⟩ "t"
    ∧ exTableIdx.AddIndex ["b"] false none =
        Except.error (.duplicateIndexName none, exTableIdx) := by
  constructor
  · decide
  · decide

/-- C9 amended: for valid columns, `AddIndex` fails with the
duplicate-index-name error exactly when the stored name of an existing
index (its explicit name, the derived name if it was already rendered, or
`None` when absent and unrendered) equals the new index's stored name —
the explicit name if given and otherwise `None`, never the derived name;
otherwise the index is appended. -/
theorem C9_amended (t : SQLTable) (columns : List String) (unique : Bool)
    (name : Option String) (hcols : ∀ c ∈ columns, t.hasFieldName c = true) :
    (t.indexes.any (fun idx => idx.name = name) = true →
        t.AddIndex columns unique name =
          Except.error (.duplicateIndexName name, t))
    ∧ (t.indexes.any (fun idx => idx.name = name) = false →
        t.AddIndex columns unique name =
          Except.ok { t with indexes := t.indexes ++
            [{ columns := columns, unique := unique,
               create_if_not_exists := true, name := name }] }) := by
  have hfind : columns.find? (fun c => !(t.hasFieldName c)) = none := by
    rw [List.find?_eq_none]
    intro c hc
    simp [hcols c hc]
  constructor
  · intro hdup
    unfold SQLTable.AddIndex
    simp [hfind, hdup]
  · intro hdup
    unfold SQLTable.AddIndex
    simp [hfind, hdup]

/-- C9 witness: an explicitly named index is appended next to an unnamed
one. -/
theorem C9_witness :
    exTableIdx.AddIndex ["b"] false (some "named") =
      Except.ok { exTableIdx with indexes := exTableIdx.indexes ++
        [{ columns := ["b"], unique := false,
           create_if_not_exists := true, name := some "named" }] } :=
  (C9_amended exTableIdx ["b"] false (some "named") (by decide)).2 (by decide)

/- ### Counting helpers for the migration claims -/

theorem countP_filterMap_eq {α β : Type} (g : α → Option β) (p : β → Bool) :
    ∀ l : List α, (l.filterMap g).countP p
      = l.countP (fun a => ((g a).map p).getD false) := by
  intro l
  induction l with
  | nil => rfl
  | cons a l ih =>
    cases hg : g a with
    | none => simp [List.filterMap_cons, hg, List.countP_cons, ih]
    | some b => simp [List.filterMap_cons, hg, List.countP_cons, ih]

theorem countP_eq_one_of_mem_unique {α : Type} :
    ∀ (l : List α) (p : α → Bool) (a : α), l.Nodup → a ∈ l → p a = true →
      (∀ b ∈ l, p b = true → b = a) → l.countP p = 1 := by
  intro l p a hnd ha hpa huniq
  induction l with
  | nil => cases ha
  | cons b l ih =>
    rcases List.mem_cons.mp ha with rfl | hal
    · have hzero : l.countP p = 0 := by
        rw [List.countP_eq_zero]
        intro x hx hpx
        have := huniq x (List.mem_cons_of_mem _ hx) hpx
        subst this
        exact (List.nodup_cons.mp hnd).1 hx
      simp [List.countP_cons, hzero, hpa]
    · have hba : p b = false := by
        cases hpb : p b with
        | false => rfl
        | true =>
          have := huniq b (List.mem_cons_self _ _) hpb
          subst this
          exact absurd hal (List.nodup_cons.mp hnd).1
      have := ih (List.nodup_cons.mp hnd).2 hal
        (fun x hx hpx => huniq x (List.mem_cons_of_mem _ hx) hpx)
      simp [List.countP_cons, hba, this]

/- ### Structure of the `TableValidation` output -/

theorem vts_fst (live : LiveDB) (u : SQLTable) :
    (ValidateTableStructure live u).1 =
      (u.fields.filter (fun f =>
        !(((GetExistingFields live u.name).map Prod.fst).contains f.name))).map (fun f =>
        ConnStmt.alterAdd u.name f.name
          ("ALTER TABLE " ++ u.name ++ " ADD COLUMN " ++ f.name ++ " " ++ f.GetCreateStr)) := rfl

theorem vts_snd (live : LiveDB) (u : SQLTable) :
    (ValidateTableStructure live u).2 =
      (u.fields.filter (fun f =>
        ((GetExistingFields live u.name).map Prod.fst).contains f.name)).filterMap (fun f =>
        match (GetExistingFields live u.name).find? (fun nc => nc.1 = f.name) with
        | some nc =>
          if nc.2 ≠ pyUpper f.data_type_str then
            some (ConnWarning.typeMismatch u.name f.name nc.2 (pyUpper f.data_type_str))
          else none
        | none => none) := rfl

theorem tv_fst (db : SQLDatabase) (live : LiveDB) :
    (TableValidation db live).1 = db.tables.flatMap (fun u =>
      if live.tableNames.contains u.name then (ValidateTableStructure live u).1
      else CreateTableStmts u) := rfl

theorem tv_snd (db : SQLDatabase) (live : LiveDB) :
    (TableValidation db live).2 = (db.tables.flatMap (fun u =>
      if live.tableNames.contains u.name then (ValidateTableStructure live u).2
      else [])) ++ (live.tableNames.filter (fun n =>
        !(db.tables.map (fun t => t.name)).contains n && n != "sqlite_sequence")).map
        ConnWarning.deprecatedTable := rfl

theorem stmtTable_of_mem_vts {live : LiveDB} {u : SQLTable} {st : ConnStmt}
    (h : st ∈ (ValidateTableStructure live u).1) : st.stmtTable = u.name := by
  rw [vts_fst] at h
  obtain ⟨f, -, rfl⟩ := List.mem_map.mp h
  rfl

theorem stmtTable_of_mem_cts {u : SQLTable} {st : ConnStmt}
    (h : st ∈ CreateTableStmts u) : st.stmtTable = u.name := by
  unfold CreateTableStmts at h
  rcases List.mem_cons.mp h with rfl | h
  · rfl
  · obtain ⟨sql, -, rfl⟩ := List.mem_map.mp h
    rfl

theorem isAlterFor_table {tn fn : String} {st : ConnStmt}
    (h : ConnStmt.isAlterFor tn fn st = true) : st.stmtTable = tn := by
  cases st <;> simp_all [ConnStmt.isAlterFor, ConnStmt.stmtTable]

theorem isCreateFor_table {tn : String} {st : ConnStmt}
    (h : ConnStmt.isCreateFor tn st = true) : st.stmtTable = tn := by
  cases st <;> simp_all [ConnStmt.isCreateFor, ConnStmt.stmtTable]

/-- The whole-statement-stream count localises to the table's own chunk when
the counted predicate pins the table name and table names are unique. -/
theorem countP_tv_localises (db : SQLDatabase) (live : LiveDB)
    (hnd : (db.tables.map (fun t => t.name)).Nodup) (t : SQLTable)
    (ht : t ∈ db.tables) (q : ConnStmt → Bool)
    (hq : ∀ st, q st = true → st.stmtTable = t.name) :
    (TableValidation db live).1.countP q =
      (if live.tableNames.contains t.name then (ValidateTableStructure live t).1
       else CreateTableStmts t).countP q := by
  have hchunk0 : ∀ u : SQLTable, u.name ≠ t.name →
      (if live.tableNames.contains u.name then (ValidateTableStructure live u).1
       else CreateTableStmts u).countP q = 0 := by
    intro u hne
    rw [List.countP_eq_zero]
    intro st hst hqst
    have h1 : st.stmtTable = u.name := by
      split at hst
      · exact stmtTable_of_mem_vts hst
      · exact stmtTable_of_mem_cts hst
    exact hne (h1 ▸ hq st hqst)
  obtain ⟨l₁, l₂, heq⟩ := List.append_of_mem ht
  have hnames := heq ▸ hnd
  rw [List.map_append, List.map_cons] at hnames
  have h1 : t.name ∉ l₁.map (fun u => u.name) := by
    intro hmem
    have hdisj := (List.nodup_append.mp hnames).2.2
    exact hdisj hmem (List.mem_cons_self _ _)
  have h2 : t.name ∉ l₂.map (fun u => u.name) :=
    (List.nodup_cons.mp (List.nodup_append.mp hnames).2.1).1
  rw [tv_fst, heq, List.countP_flatMap, List.map_append, List.map_cons,
    List.sum_append, List.sum_cons]
  have hz1 : (l₁.map (List.countP q ∘ fun u =>
      if live.tableNames.contains u.name then (ValidateTableStructure live u).1
      else CreateTableStmts u)).sum = 0 := by
    apply List.sum_eq_zero
    intro x hx
    obtain ⟨u, hu, rfl⟩ := List.mem_map.mp hx
    exact hchunk0 u (fun he => h1 (List.mem_map.mpr ⟨u, hu, he⟩))
  have hz2 : (l₂.map (List.countP q ∘ fun u =>
      if live.tableNames.contains u.name then (ValidateTableStructure live u).1
      else CreateTableStmts u)).sum = 0 := by
    apply List.sum_eq_zero
    intro x hx
    obtain ⟨u, hu, rfl⟩ := List.mem_map.mp hx
    exact hchunk0 u (fun he => h2 (List.mem_map.mpr ⟨u, hu, he⟩))
  rw [hz1, hz2]
  simp

theorem warnTable_of_mem_vts {live : LiveDB} {u : SQLTable} {w : ConnWarning}
    (h : w ∈ (ValidateTableStructure live u).2) : w.warnTable = u.name := by
  rw [vts_snd] at h
  obtain ⟨f, -, hf⟩ := List.mem_filterMap.mp h
  split at hf
  · split at hf
    · cases hf with
      | refl => rfl
    · cases hf
  · cases hf

theorem isMismatchFor_table {tn fn : String} {w : ConnWarning}
    (h : ConnWarning.isMismatchFor tn fn w = true) : w.warnTable = tn := by
  cases w <;> simp_all [ConnWarning.isMismatchFor, ConnWarning.warnTable]

theorem isMismatchFor_not_deprecated (tn fn tb : String) :
    ConnWarning.isMismatchFor tn fn (ConnWarning.deprecatedTable tb) = false := rfl

/-- The warnings count also localises to the table's own chunk. -/
theorem countP_tv_warn_localises (db : SQLDatabase) (live : LiveDB)
    (hnd : (db.tables.map (fun t => t.name)).Nodup) (t : SQLTable)
    (ht : t ∈ db.tables) (fn : String) :
    (TableValidation db live).2.countP (ConnWarning.isMismatchFor t.name fn) =
      (if live.tableNames.contains t.name then (ValidateTableStructure live t).2
       else []).countP (ConnWarning.isMismatchFor t.name fn) := by
  have hq : ∀ w, ConnWarning.isMismatchFor t.name fn w = true → w.warnTable = t.name :=
    fun w h => isMismatchFor_table h
  have hchunk0 : ∀ u : SQLTable, u.name ≠ t.name →
      (if live.tableNames.contains u.name then (ValidateTableStructure live u).2
       else ([] : List ConnWarning)).countP (ConnWarning.isMismatchFor t.name fn) = 0 := by
    intro u hne
    rw [List.countP_eq_zero]
    intro w hw hqw
    have h1 : w.warnTable = u.name := by
      split at hw
      · exact warnTable_of_mem_vts hw
      · cases hw
    exact hne (h1 ▸ hq w hqw)
  have hdep : ((live.tableNames.filter (fun n =>
      !(db.tables.map (fun t => t.name)).contains n && n != "sqlite_sequence")).map
      ConnWarning.deprecatedTable).countP (ConnWarning.isMismatchFor t.name fn) = 0 := by
    rw [List.countP_eq_zero]
    intro w hw
    obtain ⟨n, -, rfl⟩ := List.mem_map.mp hw
    simp [isMismatchFor_not_deprecated]
  obtain ⟨l₁, l₂, heq⟩ := List.append_of_mem ht
  have hnames := heq ▸ hnd
  rw [List.map_append, List.map_cons] at hnames
  have h1 : t.name ∉ l₁.map (fun u => u.name) := by
    intro hmem
    exact (List.nodup_append.mp hnames).2.2 hmem (List.mem_cons_self _ _)
  have h2 : t.name ∉ l₂.map (fun u => u.name) :=
    (List.nodup_cons.mp (List.nodup_append.mp hnames).2.1).1
  rw [tv_snd, heq, List.countP_append, List.countP_flatMap, List.map_append,
    List.map_cons, List.sum_append, List.sum_cons]
  have hz1 : (l₁.map (List.countP (ConnWarning.isMismatchFor t.name fn) ∘ fun u =>
      if live.tableNames.contains u.name then (ValidateTableStructure live u).2
      else [])).sum = 0 := by
    apply List.sum_eq_zero
    intro x hx
    obtain ⟨u, hu, rfl⟩ := List.mem_map.mp hx
    exact hchunk0 u (fun he => h1 (List.mem_map.mpr ⟨u, hu, he⟩))
  have hz2 : (l₂.map (List.countP (ConnWarning.isMismatchFor t.name fn) ∘ fun u =>
      if live.tableNames.contains u.name then (ValidateTableStructure live u).2
      else [])).sum = 0 := by
    apply List.sum_eq_zero
    intro x hx
    obtain ⟨u, hu, rfl⟩ := List.mem_map.mp hx
    exact hchunk0 u (fun he => h2 (List.mem_map.mpr ⟨u, hu, he⟩))
  have hdep' := hdep
  rw [heq] at hdep'
  rw [hz1, hz2, hdep']
  simp

/-- C7: during `TableValidation` against a live database (with the
well-formed table/field name uniqueness that `AddTable`/`AddField`
enforce): for a declared table present live, every declared field absent
from the live columns contributes exactly one `ALTER TABLE ... ADD COLUMN`
statement and no `CREATE TABLE` is issued for that table; every declared
field present live whose normalised type differs from the declared type
contributes exactly one warning and no `ALTER` statement; a declared table
absent live gets exactly one `CREATE TABLE` statement plus all of its
`CREATE INDEX` statements. -/
theorem C7_table_validation (db : SQLDatabase) (live : LiveDB)
    (hnd : (db.tables.map (fun t => t.name)).Nodup) :
    ∀ t ∈ db.tables, (t.fields.map (fun f => f.name)).Nodup →
      (live.tableNames.contains t.name = true →
        ∀ f ∈ t.fields,
          (((GetExistingFields live t.name).map Prod.fst).contains f.name = false →
            (TableValidation db live).1.countP (ConnStmt.isAlterFor t.name f.name) = 1
            ∧ (TableValidation db live).1.countP (ConnStmt.isCreateFor t.name) = 0)
          ∧ (∀ nc, (GetExistingFields live t.name).find? (fun p => p.1 = f.name) = some nc →
              nc.2 ≠ pyUpper f.data_type_str →
              (TableValidation db live).2.countP (ConnWarning.isMismatchFor t.name f.name) = 1
              ∧ (TableValidation db live).1.countP (ConnStmt.isAlterFor t.name f.name) = 0))
      ∧ (live.tableNames.contains t.name = false →
          (TableValidation db live).1.countP (ConnStmt.isCreateFor t.name) = 1
          ∧ ∀ sql ∈ t.GetCreateIndexSQLs,
              ConnStmt.createIndexStmt t.name sql ∈ (TableValidation db live).1) := by
  intro t ht hfnd
  have hfieldsnd : t.fields.Nodup := List.Nodup.of_map _ hfnd
  have hinj := List.inj_on_of_nodup_map hfnd
  constructor
  · -- table present live
    intro hlive f hf
    have halter : ∀ (hm : Bool),
        (((GetExistingFields live t.name).map Prod.fst).contains f.name = !hm) →
        (TableValidation db live).1.countP (ConnStmt.isAlterFor t.name f.name)
          = (if hm then 1 else 0) := by
      intro hm hmv
      rw [countP_tv_localises db live hnd t ht _ (fun st h => isAlterFor_table h),
        if_pos hlive, vts_fst, List.countP_map]
      have hfun : ((ConnStmt.isAlterFor t.name f.name) ∘ fun (f' : SQLField) =>
          ConnStmt.alterAdd t.name f'.name
            ("ALTER TABLE " ++ t.name ++ " ADD COLUMN " ++ f'.name ++ " " ++ f'.GetCreateStr))
          = fun (f' : SQLField) => f'.name == f.name := by
        funext f'
        simp [ConnStmt.isAlterFor, Function.comp]
      rw [hfun, List.countP_filter]
      cases hm with
      | true =>
        simp only [if_pos]
        apply countP_eq_one_of_mem_unique t.fields _ f hfieldsnd hf
        · simp only [Bool.and_eq_true, beq_iff_eq]
          exact ⟨trivial, by simpa using hmv⟩
        · intro b hb hpb
          simp only [Bool.and_eq_true, beq_iff_eq] at hpb
          exact hinj hb hf hpb.1
      | false =>
        simp only [if_neg Bool.false_ne_true]
        rw [List.countP_eq_zero]
        intro b hb hpb
        simp only [Bool.and_eq_true, beq_iff_eq] at hpb
        have := hinj hb hf hpb.1
        subst this
        rw [show (((GetExistingFields live t.name).map Prod.fst).contains b.name) = true
          by simpa using hmv] at hpb
        simp at hpb
    constructor
    · -- field missing live
      intro hmiss
      refine ⟨by simpa using halter true (by simpa using hmiss), ?_⟩
      rw [countP_tv_localises db live hnd t ht _ (fun st h => isCreateFor_table h),
        if_pos hlive, vts_fst, List.countP_eq_zero]
      intro st hst
      obtain ⟨f', -, rfl⟩ := List.mem_map.mp hst
      simp [ConnStmt.isCreateFor]
    · -- field present live with a type mismatch
      intro nc hfind hmm
      have hcont : ((GetExistingFields live t.name).map Prod.fst).contains f.name = true := by
        have hmem := List.mem_of_find?_eq_some hfind
        have hp := List.find?_some hfind
        simp only [decide_eq_true_eq] at hp
        have hmemmap : nc.1 ∈ (GetExistingFields live t.name).map Prod.fst :=
          List.mem_map.mpr ⟨nc, hmem, rfl⟩
        rw [hp] at hmemmap
        simpa using hmemmap
      refine ⟨?_, by simpa using halter false (by simpa using hcont)⟩
      rw [countP_tv_warn_localises db live hnd t ht, if_pos hlive, vts_snd,
        countP_filterMap_eq, List.countP_filter]
      apply countP_eq_one_of_mem_unique t.fields _ f hfieldsnd hf
      · simp only [Bool.and_eq_true]
        refine ⟨?_, hcont⟩
        rw [hfind]
        simp [hmm, ConnWarning.isMismatchFor]
      · intro b hb hpb
        simp only [Bool.and_eq_true] at hpb
        obtain ⟨hpb1, -⟩ := hpb
        apply hinj hb hf
        rcases hfindb : (GetExistingFields live t.name).find? (fun p => p.1 = b.name) with
          _ | ncb
        · rw [hfindb] at hpb1
          simp at hpb1
        · rw [hfindb] at hpb1
          by_cases hmb : ncb.2 ≠ pyUpper b.data_type_str
          · simp [hmb] at hpb1
            simp [ConnWarning.isMismatchFor] at hpb1
            exact hpb1
          · simp [hmb] at hpb1
  · -- table absent live
    intro habs
    constructor
    · rw [countP_tv_localises db live hnd t ht _ (fun st h => isCreateFor_table h),
        habs, if_neg Bool.false_ne_true]
      unfold CreateTableStmts
      rw [List.countP_cons]
      have hz : (t.GetCreateIndexSQLs.map (fun s =>
          ConnStmt.createIndexStmt t.name s)).countP (ConnStmt.isCreateFor t.name) = 0 := by
        rw [List.countP_eq_zero]
        intro st hst
        obtain ⟨sql, -, rfl⟩ := List.mem_map.mp hst
        simp [ConnStmt.isCreateFor]
      rw [hz]
      simp [ConnStmt.isCreateFor]
    · intro sql hsql
      rw [tv_fst]
      refine List.mem_flatMap.mpr ⟨t, ht, ?_⟩
      rw [habs, if_neg Bool.false_ne_true]
      unfold CreateTableStmts
      exact List.mem_cons_of_mem _ (List.mem_map.mpr ⟨sql, hsql, rfl⟩)

/-- C7 witness: the migration fixtures — a live table missing `extra` gets
exactly one ALTER and no CREATE, the mismatched `typed` column gets exactly
one warning, and the absent table `n` gets its CREATE TABLE. -/
theorem C7_witness :
    (TableValidation c7db c7live).1.countP (ConnStmt.isAlterFor "m" "extra") = 1
    ∧ (TableValidation c7db c7live).1.countP (ConnStmt.isCreateFor "m") = 0
    ∧ (TableValidation c7db c7live).2.countP (ConnWarning.isMismatchFor "m" "typed") = 1
    ∧ (TableValidation c7db c7live).1.countP (ConnStmt.isCreateFor "n") = 1 := by
  have hm := C7_table_validation c7db c7live (by decide) c7m (by decide) (by decide)
  have hn := C7_table_validation c7db c7live (by decide) c7n (by decide) (by decide)
  have h1 := (hm.1 (by decide) (mkField "extra" "TEXT") (by decide)).1 (by decide)
  have h2 := (hm.1 (by decide) (mkField "typed" "TEXT") (by decide)).2
    ("typed", "INT") (by decide) (by decide)
  have h3 := (hn.2 (by decide)).1
  exact ⟨h1.1, h1.2, h2.1, h3⟩

/-- C10: the connector operates only on the private structure copy made by
`__init__` (`copy.deepcopy`), held at a fresh heap address: after
initialisation and any sequence of `Connect` / `TableValidation` /
`AddTable` / `LoadStructureFromDatabase` operations, the caller's original
`SQLDatabase` — table list, name map and foreign-key graph, all functions of
it — is unchanged, while the copy initially equals the caller's value. -/
theorem C10_connector_frame (h : Heap) (caller fresh : Nat) (ops : List ConnOp)
    (hne : fresh ≠ caller) :
    connRun fresh (connectorInit h caller fresh) ops caller = h caller
    ∧ connectorInit h caller fresh fresh = h caller := by
  have hcf : caller ≠ fresh := Ne.symm hne
  constructor
  · suffices H : ∀ (ops : List ConnOp) (g : Heap), g caller = h caller →
        connRun fresh g ops caller = h caller by
      apply H
      unfold connectorInit
      simp [hcf]
    intro ops
    induction ops with
    | nil => intro g hg; exact hg
    | cons op rest ih =>
      intro g hg
      apply ih
      cases op with
      | connectOp => exact hg
      | tableValidationOp live => exact hg
      | addTableOp t =>
        unfold connStep
        simp [hcf]
        exact hg
      | loadStructureOp l =>
        unfold connStep
        simp [hcf]
        exact hg
  · unfold connectorInit
    simp

/-- C10 witness: a concrete run (create a table, then reload the structure
from the live database) leaves the caller's structure untouched. -/
theorem C10_witness :
    connRun 1 (connectorInit heap0 0 1)
      [ConnOp.addTableOp tblSelf, ConnOp.loadStructureOp dbSelf] 0 = heap0 0 :=
  (C10_connector_frame heap0 0 1
    [ConnOp.addTableOp tblSelf, ConnOp.loadStructureOp dbSelf] (by decide)).1

/- ### Depth-first-search lemmas for `CheckForeignKeyCycles` -/

theorem le_natMaxList {x : Nat} : ∀ {l : List Nat}, x ∈ l → x ≤ natMaxList l := by
  intro l hx
  induction l with
  | nil => cases hx
  | cons a l ih =>
    rcases List.mem_cons.mp hx with rfl | hx'
    · exact le_max_left _ _
    · exact le_trans (ih hx') (le_max_right _ _)

theorem nodeBound_le_of_subset {NL vis vis' : List String} (h : vis ⊆ vis') :
    nodeBound NL vis' ≤ nodeBound NL vis := by
  apply Finset.card_le_card
  apply Finset.sdiff_subset_sdiff (le_refl _)
  intro x hx
  exact List.mem_toFinset.mpr (h (List.mem_toFinset.mp hx))

theorem nodeBound_cons_lt {NL vis : List String} {n : String}
    (hn : n ∈ NL) (hv : n ∉ vis) : nodeBound NL (n :: vis) < nodeBound NL vis := by
  apply Finset.card_lt_card
  constructor
  · intro x hx
    have h1 := Finset.mem_sdiff.mp hx
    refine Finset.mem_sdiff.mpr ⟨h1.1, ?_⟩
    intro hx2
    exact h1.2 (List.mem_toFinset.mpr (List.mem_cons_of_mem _ (List.mem_toFinset.mp hx2)))
  · intro hsub
    have hmem : n ∈ NL.toFinset \ vis.toFinset :=
      Finset.mem_sdiff.mpr ⟨List.mem_toFinset.mpr hn, fun hc => hv (List.mem_toFinset.mp hc)⟩
    have := Finset.mem_sdiff.mp (hsub hmem)
    exact this.2 (List.mem_toFinset.mpr (List.mem_cons_self _ _))

theorem nodeBound_pos {NL vis : List String} {n : String}
    (hn : n ∈ NL) (hv : n ∉ vis) : 0 < nodeBound NL vis := by
  apply Finset.card_pos.mpr
  exact ⟨n, Finset.mem_sdiff.mpr ⟨List.mem_toFinset.mpr hn,
    fun hc => hv (List.mem_toFinset.mp hc)⟩⟩

/-- Every entry of the dependency graph names a table of the database. -/
theorem fkGraph_mem {db : SQLDatabase} {a b : String} (h : b ∈ fkGraph db a) :
    b ∈ db.tables.map (fun t => t.name) := by
  unfold fkGraph at h
  obtain ⟨t, ht, hb⟩ := List.mem_flatMap.mp h
  obtain ⟨fk, -, rfl⟩ := List.mem_map.mp hb
  exact List.mem_map.mpr ⟨t, ht, rfl⟩

/-- Walking the recursion stack: every stack entry either is the top or
reaches the top through graph edges. -/
theorem chain_to_transGen (g : String → List String) :
    ∀ (stack : List String) (n : String),
      List.Chain' (fun x y => x ∈ g y) (n :: stack) →
      ∀ x ∈ n :: stack, x = n ∨ Relation.TransGen (gEdge g) x n := by
  intro stack
  induction stack with
  | nil =>
    intro n _ x hx
    rcases List.mem_cons.mp hx with rfl | hx'
    · exact Or.inl rfl
    · cases hx'
  | cons s rest ih =>
    intro n hchain x hx
    have hcons := List.chain'_cons.mp hchain
    rcases List.mem_cons.mp hx with rfl | hx'
    · exact Or.inl rfl
    · right
      have hsn : Relation.TransGen (gEdge g) s n := Relation.TransGen.single hcons.1
      rcases ih s hcons.2 x hx' with rfl | hxs
      · exact hsn
      · exact Relation.TransGen.trans hxs hsn

/-- `visited` only grows during a `dfsLoop` run. -/
theorem dfsLoop_mono (rec : List String → String → Bool × List String)
    (stack' : List String) (hrec : ∀ vis m, vis ⊆ (rec vis m).2) :
    ∀ (nbs vis : List String), vis ⊆ (dfsLoop rec stack' vis nbs).2 := by
  intro nbs
  induction nbs with
  | nil => intro vis; exact fun x h => h
  | cons nb rest ih =>
    intro vis
    unfold dfsLoop
    by_cases h1 : nb ∈ vis
    · rw [if_pos h1]
      by_cases h2 : nb ∈ stack'
      · rw [if_pos h2]; exact fun x h => h
      · rw [if_neg h2]; exact ih vis
    · rw [if_neg h1]
      rcases hv : rec vis nb with ⟨b, w⟩
      have hw : vis ⊆ w := by have := hrec vis nb; rw [hv] at this; exact this
      cases b
      · exact Set.Subset.trans hw (ih w)
      · exact hw

/-- `visited` only grows during a `dfsVisit` run. -/
theorem dfsVisit_mono (g : String → List String) :
    ∀ (fuel : Nat) (stack vis : List String) (n : String),
      vis ⊆ (dfsVisit g fuel stack vis n).2 := by
  intro fuel
  induction fuel with
  | zero => intro stack vis n; exact fun x h => h
  | succ fuel ih =>
    intro stack vis n
    unfold dfsVisit
    have hsub : vis ⊆ n :: vis := fun x h => List.mem_cons_of_mem _ h
    exact Set.Subset.trans hsub
      (dfsLoop_mono _ _ (fun v m => ih (n :: stack) v m) (g n) (n :: vis))

/-- The neighbour loop propagates a cycle discovery: either a neighbour on
the recursion stack closes a cycle, or a recursive visit finds one. -/
theorem dfsLoop_true_cycle (g : String → List String) (NL : List String)
    (hg : ∀ a b, b ∈ g a → b ∈ NL) (fuel : Nat) (n : String) (stack : List String)
    (IH : ∀ (stack₂ vis₂ : List String) (m : String) (w : List String),
      stack₂ ⊆ vis₂ → m ∉ vis₂ → m ∈ NL → nodeBound NL vis₂ ≤ fuel →
      List.Chain' (fun x y => x ∈ g y) (m :: stack₂) →
      dfsVisit g fuel stack₂ vis₂ m = (true, w) → HasCycleG g) :
    ∀ (nbs vis w : List String), (∀ x ∈ nbs, x ∈ g n) → (n :: stack) ⊆ vis →
      nodeBound NL vis ≤ fuel →
      List.Chain' (fun x y => x ∈ g y) (n :: stack) →
      dfsLoop (fun v m => dfsVisit g fuel (n :: stack) v m) (n :: stack) vis nbs
        = (true, w) → HasCycleG g := by
  intro nbs
  induction nbs with
  | nil =>
    intro vis w _ _ _ _ h
    simp [dfsLoop] at h
  | cons nb rest ih =>
    intro vis w hnbs hsub hbound hchain h
    unfold dfsLoop at h
    by_cases h1 : nb ∈ vis
    · rw [if_pos h1] at h
      by_cases h2 : nb ∈ n :: stack
      · -- back edge: nb is on the recursion stack and nb ∈ g n
        have hedge : gEdge g n nb := hnbs nb (List.mem_cons_self _ _)
        rcases chain_to_transGen g stack n hchain nb h2 with rfl | htg
        · exact ⟨nb, Relation.TransGen.single hedge⟩
        · exact ⟨nb, Relation.TransGen.tail htg hedge⟩
      · rw [if_neg h2] at h
        exact ih vis w (fun x hx => hnbs x (List.mem_cons_of_mem _ hx)) hsub hbound hchain h
    · rw [if_neg h1] at h
      rcases hv : dfsVisit g fuel (n :: stack) vis nb with ⟨b, w₁⟩
      rw [hv] at h
      have hnbNL : nb ∈ NL := hg n nb (hnbs nb (List.mem_cons_self _ _))
      cases b
      · -- recursive visit returned false; continue with the grown visited set
        have hw₁ : vis ⊆ w₁ := by
          have := dfsVisit_mono g fuel (n :: stack) vis nb
          rw [hv] at this; exact this
        exact ih w₁ w (fun x hx => hnbs x (List.mem_cons_of_mem _ hx))
          (fun x hx => hw₁ (hsub hx))
          (le_trans (nodeBound_le_of_subset hw₁) hbound) hchain h
      · -- recursive visit found a cycle
        exact IH (n :: stack) vis nb w₁ hsub h1 hnbNL hbound
          (List.chain'_cons.mpr ⟨hnbs nb (List.mem_cons_self _ _), hchain⟩) hv

/-- A `True` result of `dfs` means the graph has a cycle. -/
theorem dfsVisit_true_cycle (g : String → List String) (NL : List String)
    (hg : ∀ a b, b ∈ g a → b ∈ NL) :
    ∀ (fuel : Nat) (stack vis : List String) (n : String) (w : List String),
      stack ⊆ vis → n ∉ vis → n ∈ NL → nodeBound NL vis ≤ fuel →
      List.Chain' (fun x y => x ∈ g y) (n :: stack) →
      dfsVisit g fuel stack vis n = (true, w) → HasCycleG g := by
  intro fuel
  induction fuel with
  | zero =>
    intro stack vis n w _ hnv hnNL hbound _ _
    have := nodeBound_pos hnNL hnv
    omega
  | succ fuel ih =>
    intro stack vis n w hsub hnv hnNL hbound hchain h
    unfold dfsVisit at h
    have hbound' : nodeBound NL (n :: vis) ≤ fuel := by
      have := nodeBound_cons_lt hnNL hnv
      omega
    exact dfsLoop_true_cycle g NL hg fuel n stack
      (fun stack₂ vis₂ m w₂ a b c d e f => ih stack₂ vis₂ m w₂ a b c d e f)
      (g n) (n :: vis) w (fun x hx => hx)
      (fun x hx => by
        rcases List.mem_cons.mp hx with rfl | hx'
        · exact List.mem_cons_self _ _
        · exact List.mem_cons_of_mem _ (hsub hx'))
      hbound' hchain h

/-- A `True` result of the root loop means the graph has a cycle. -/
theorem checkRoots_true_cycle (g : String → List String) (NL : List String)
    (hg : ∀ a b, b ∈ g a → b ∈ NL) (fuel : Nat) :
    ∀ (roots : List SQLTable) (vis : List String),
      (∀ t ∈ roots, t.name ∈ NL) → nodeBound NL vis ≤ fuel →
      checkRoots g fuel roots vis = true → HasCycleG g := by
  intro roots
  induction roots with
  | nil => intro vis _ _ h; simp [checkRoots] at h
  | cons t rest ih =>
    intro vis hroots hbound h
    unfold checkRoots at h
    by_cases h1 : t.name ∈ vis
    · rw [if_pos h1] at h
      exact ih vis (fun u hu => hroots u (List.mem_cons_of_mem _ hu)) hbound h
    · rw [if_neg h1] at h
      rcases hv : dfsVisit g fuel [] vis t.name with ⟨b, w⟩
      rw [hv] at h
      cases b
      · have hw : vis ⊆ w := by
          have := dfsVisit_mono g fuel [] vis t.name
          rw [hv] at this; exact this
        exact ih w (fun u hu => hroots u (List.mem_cons_of_mem _ hu))
          (le_trans (nodeBound_le_of_subset hw) hbound) h
      · exact dfsVisit_true_cycle g NL hg fuel [] vis t.name w
          (fun x hx => absurd hx (List.not_mem_nil x)) h1
          (hroots t (List.mem_cons_self _ _)) hbound (List.chain'_singleton _) hv

/- ### Rank extraction: a `False` DFS result certifies acyclicity -/

theorem goodRank_congr {g : String → List String} {B B' : String → Prop}
    {r : String → Nat} (h : ∀ x, B x ↔ B' x) (hg : GoodRank g B r) :
    GoodRank g B' r := by
  intro m hm k hk
  obtain ⟨h1, h2⟩ := hg m ((h m).mpr hm) k hk
  exact ⟨(h k).mp h1, h2⟩

/-- Pushing an unvisited node onto the stack does not disturb the black
set. -/
theorem goodRank_stack_cons {g : String → List String} {vis S : List String}
    {r : String → Nat} {nb : String} (hnv : nb ∉ vis)
    (hgood : GoodRank g (blackSet vis S) r) :
    GoodRank g (blackSet vis (nb :: S)) r := by
  intro m hm k hk
  obtain ⟨hm1, hm2⟩ := hm
  obtain ⟨⟨hk1, hk2⟩, hr⟩ := hgood m ⟨hm1, fun hc => hm2 (List.mem_cons_of_mem _ hc)⟩ k hk
  refine ⟨⟨hk1, ?_⟩, hr⟩
  intro hc
  rcases List.mem_cons.mp hc with rfl | hc'
  · exact hnv hk1
  · exact hk2 hc'

/-- The neighbour loop of a `False`-returning visit: the good rank survives
and every scanned neighbour ends up black. -/
theorem dfsLoop_false_rank (g : String → List String) (NL : List String)
    (_hg : ∀ a b, b ∈ g a → b ∈ NL) (fuel : Nat) (S : List String)
    (IH : ∀ (vis₂ : List String) (m : String) (r₂ : String → Nat) (w₂ : List String),
      S ⊆ vis₂ → m ∉ vis₂ → m ∈ NL → nodeBound NL vis₂ ≤ fuel →
      GoodRank g (blackSet vis₂ (m :: S)) r₂ →
      dfsVisit g fuel S vis₂ m = (false, w₂) →
      ∃ r', GoodRank g (blackSet w₂ S) r' ∧ vis₂ ⊆ w₂ ∧ m ∈ w₂) :
    ∀ (nbs vis : List String) (r : String → Nat) (w : List String),
      (∀ x ∈ nbs, x ∈ NL) → S ⊆ vis → nodeBound NL vis ≤ fuel →
      GoodRank g (blackSet vis S) r →
      dfsLoop (fun v m => dfsVisit g fuel S v m) S vis nbs = (false, w) →
      ∃ r', GoodRank g (blackSet w S) r' ∧ vis ⊆ w ∧
        (∀ x ∈ nbs, x ∈ w ∧ x ∉ S) := by
  intro nbs
  induction nbs with
  | nil =>
    intro vis r w _ _ _ hgood h
    simp only [dfsLoop, Prod.mk.injEq] at h
    exact ⟨r, h.2 ▸ hgood, h.2 ▸ fun x hx => hx, fun x hx => absurd hx (List.not_mem_nil x)⟩
  | cons nb rest ih =>
    intro vis r w hNL hS hbound hgood h
    unfold dfsLoop at h
    by_cases h1 : nb ∈ vis
    · rw [if_pos h1] at h
      by_cases h2 : nb ∈ S
      · rw [if_pos h2] at h
        cases h
      · rw [if_neg h2] at h
        obtain ⟨r', hr', hsub, hall⟩ :=
          ih vis r w (fun x hx => hNL x (List.mem_cons_of_mem _ hx)) hS hbound hgood h
        refine ⟨r', hr', hsub, ?_⟩
        intro x hx
        rcases List.mem_cons.mp hx with rfl | hx'
        · exact ⟨hsub h1, h2⟩
        · exact hall x hx'
    · rw [if_neg h1] at h
      rcases hv : dfsVisit g fuel S vis nb with ⟨b, w₁⟩
      rw [hv] at h
      cases b
      · have hnbNL : nb ∈ NL := hNL nb (List.mem_cons_self _ _)
        obtain ⟨r₁, hgood₁, hsub₁, hmem₁⟩ :=
          IH vis nb r w₁ hS h1 hnbNL hbound (goodRank_stack_cons h1 hgood) hv
        obtain ⟨r', hr', hsub₂, hall⟩ :=
          ih w₁ r₁ w (fun x hx => hNL x (List.mem_cons_of_mem _ hx))
            (fun x hx => hsub₁ (hS hx))
            (le_trans (nodeBound_le_of_subset hsub₁) hbound) hgood₁ h
        refine ⟨r', hr', fun x hx => hsub₂ (hsub₁ hx), ?_⟩
        intro x hx
        rcases List.mem_cons.mp hx with rfl | hx'
        · exact ⟨hsub₂ hmem₁, fun hc => h1 (hS hc)⟩
        · exact hall x hx'
      · cases h

/-- A `False`-returning `dfs(n)` extends the good rank to cover `n`. -/
theorem dfsVisit_false_rank (g : String → List String) (NL : List String)
    (hg : ∀ a b, b ∈ g a → b ∈ NL) :
    ∀ (fuel : Nat) (stack vis : List String) (n : String) (r : String → Nat)
      (w : List String),
      stack ⊆ vis → n ∉ vis → n ∈ NL → nodeBound NL vis ≤ fuel →
      GoodRank g (blackSet vis (n :: stack)) r →
      dfsVisit g fuel stack vis n = (false, w) →
      ∃ r', GoodRank g (blackSet w stack) r' ∧ vis ⊆ w ∧ n ∈ w := by
  intro fuel
  induction fuel with
  | zero =>
    intro stack vis n r w _ _ _ _ _ h
    simp [dfsVisit] at h
  | succ fuel ihf =>
    intro stack vis n r w hsub hnv hnNL hbound hgood h
    unfold dfsVisit at h
    have hbound' : nodeBound NL (n :: vis) ≤ fuel := by
      have := nodeBound_cons_lt hnNL hnv
      omega
    have hgood' : GoodRank g (blackSet (n :: vis) (n :: stack)) r := by
      apply goodRank_congr _ hgood
      intro x
      constructor
      · intro ⟨hx1, hx2⟩
        exact ⟨List.mem_cons_of_mem _ hx1, hx2⟩
      · intro ⟨hx1, hx2⟩
        refine ⟨?_, hx2⟩
        rcases List.mem_cons.mp hx1 with rfl | hx'
        · exact absurd (List.mem_cons_self _ _) hx2
        · exact hx'
    obtain ⟨r₁, hgood₁, hsub₁, hall⟩ :=
      dfsLoop_false_rank g NL hg fuel (n :: stack)
        (fun vis₂ m r₂ w₂ a b c d e f => ihf (n :: stack) vis₂ m r₂ w₂ a b c d e f)
        (g n) (n :: vis) r w (fun x hx => hg n x hx)
        (fun x hx => by
          rcases List.mem_cons.mp hx with rfl | hx'
          · exact List.mem_cons_self _ _
          · exact List.mem_cons_of_mem _ (hsub hx'))
        hbound' hgood' h
    have hnw : n ∈ w := hsub₁ (List.mem_cons_self _ _)
    refine ⟨fun x => if x = n then natMaxList ((g n).map r₁) + 1 else r₁ x, ?_,
      fun x hx => hsub₁ (List.mem_cons_of_mem _ hx), hnw⟩
    intro m hm k hk
    by_cases hmn : m = n
    · have hk' : k ∈ g n := hmn ▸ hk
      obtain ⟨hkw, hkS⟩ := hall k hk'
      have hkn : k ≠ n := fun hc => hkS (hc ▸ List.mem_cons_self _ _)
      have hkstack : k ∉ stack := fun hc => hkS (List.mem_cons_of_mem _ hc)
      refine ⟨⟨hkw, hkstack⟩, ?_⟩
      simp only [if_neg hkn, if_pos hmn]
      exact Nat.lt_succ_of_le (le_natMaxList (List.mem_map.mpr ⟨k, hk', rfl⟩))
    · obtain ⟨hm1, hm2⟩ := hm
      have hmblack : blackSet w (n :: stack) m := by
        refine ⟨hm1, ?_⟩
        intro hc
        rcases List.mem_cons.mp hc with rfl | hc'
        · exact hmn rfl
        · exact hm2 hc'
      obtain ⟨⟨hk1, hk2⟩, hr⟩ := hgood₁ m hmblack k hk
      have hkn : k ≠ n := fun hc => hk2 (hc ▸ List.mem_cons_self _ _)
      refine ⟨⟨hk1, fun hc => hk2 (List.mem_cons_of_mem _ hc)⟩, ?_⟩
      simp only [if_neg hkn, if_neg hmn]
      exact hr

/-- The initial DFS bound: at most one visit per table. -/
theorem nodeBound_init_le (db : SQLDatabase) :
    nodeBound (db.tables.map (fun t => t.name)) [] ≤ db.tables.length := by
  unfold nodeBound
  calc ((db.tables.map (fun t => t.name)).toFinset \ ([] : List String).toFinset).card
      ≤ (db.tables.map (fun t => t.name)).toFinset.card :=
        Finset.card_le_card Finset.sdiff_subset
    _ ≤ (db.tables.map (fun t => t.name)).length := List.toFinset_card_le _
    _ = db.tables.length := List.length_map _ _

/-- A `False`-returning root loop produces a good rank covering all roots. -/
theorem checkRoots_false_rank (g : String → List String) (NL : List String)
    (hg : ∀ a b, b ∈ g a → b ∈ NL) (fuel : Nat) :
    ∀ (roots : List SQLTable) (vis : List String) (r : String → Nat),
      (∀ t ∈ roots, t.name ∈ NL) → nodeBound NL vis ≤ fuel →
      GoodRank g (fun m => m ∈ vis) r →
      checkRoots g fuel roots vis = false →
      ∃ w r', vis ⊆ w ∧ (∀ t ∈ roots, t.name ∈ w) ∧
        GoodRank g (fun m => m ∈ w) r' := by
  intro roots
  induction roots with
  | nil =>
    intro vis r _ _ hgood _
    exact ⟨vis, r, fun x hx => hx, fun t ht => absurd ht (List.not_mem_nil t), hgood⟩
  | cons t rest ih =>
    intro vis r hroots hbound hgood h
    unfold checkRoots at h
    by_cases h1 : t.name ∈ vis
    · rw [if_pos h1] at h
      obtain ⟨w, r', hsub, hrest, hgood'⟩ :=
        ih vis r (fun u hu => hroots u (List.mem_cons_of_mem _ hu)) hbound hgood h
      refine ⟨w, r', hsub, ?_, hgood'⟩
      intro u hu
      rcases List.mem_cons.mp hu with rfl | hu'
      · exact hsub h1
      · exact hrest u hu'
    · rw [if_neg h1] at h
      rcases hv : dfsVisit g fuel [] vis t.name with ⟨b, w₁⟩
      rw [hv] at h
      cases b
      · have hgoodblack : GoodRank g (blackSet vis [t.name]) r := by
          apply goodRank_stack_cons h1
          apply goodRank_congr _ hgood
          intro x
          simp [blackSet]
        obtain ⟨r₁, hgood₁, hsub₁, hmem₁⟩ :=
          dfsVisit_false_rank g NL hg fuel [] vis t.name r w₁
            (fun x hx => absurd hx (List.not_mem_nil x)) h1
            (hroots t (List.mem_cons_self _ _)) hbound hgoodblack hv
        have hgood₁' : GoodRank g (fun m => m ∈ w₁) r₁ := by
          apply goodRank_congr _ hgood₁
          intro x
          simp [blackSet]
        obtain ⟨w, r', hsub₂, hrest, hgood'⟩ :=
          ih w₁ r₁ (fun u hu => hroots u (List.mem_cons_of_mem _ hu))
            (le_trans (nodeBound_le_of_subset hsub₁) hbound) hgood₁' h
        refine ⟨w, r', fun x hx => hsub₂ (hsub₁ hx), ?_, hgood'⟩
        intro u hu
        rcases List.mem_cons.mp hu with rfl | hu'
        · exact hsub₂ hmem₁
        · exact hrest u hu'
      · cases h

/-- A `False` cycle check yields a rank certificate over a superset of the
table names. -/
theorem cfkc_false_rank (db : SQLDatabase)
    (h : db.CheckForeignKeyCycles = false) :
    ∃ (w : List String) (r : String → Nat),
      (∀ t ∈ db.tables, t.name ∈ w) ∧
      GoodRank (fkGraph db) (fun m => m ∈ w) r := by
  obtain ⟨w, r', hsub, hmem, hgood⟩ :=
    checkRoots_false_rank (fkGraph db) (db.tables.map (fun t => t.name))
      (fun a b hb => fkGraph_mem hb) db.tables.length db.tables [] (fun _ => 0)
      (fun t ht => List.mem_map.mpr ⟨t, ht, rfl⟩)
      (nodeBound_init_le db)
      (fun m hm => absurd hm (List.not_mem_nil m)) h
  exact ⟨w, r', hmem, hgood⟩

/-- Along a transitive path the rank strictly decreases. -/
theorem transGen_rank_lt {g : String → List String} {w : List String}
    {r : String → Nat} (hgood : GoodRank g (fun m => m ∈ w) r) :
    ∀ {a b : String}, Relation.TransGen (gEdge g) a b → a ∈ w →
      b ∈ w ∧ r b < r a := by
  intro a b htg
  induction htg with
  | single hedge =>
    intro ha
    exact (hgood _ ha _ hedge)
  | tail _ hedge ih =>
    intro ha
    obtain ⟨hc, hrc⟩ := ih ha
    obtain ⟨hb, hrb⟩ := hgood _ hc _ hedge
    exact ⟨hb, lt_trans hrb hrc⟩

/-- Every endpoint of a transitive path is a graph target. -/
theorem transGen_mem_NL {g : String → List String} {NL : List String}
    (hg : ∀ a b, b ∈ g a → b ∈ NL) :
    ∀ {a b : String}, Relation.TransGen (gEdge g) a b → b ∈ NL := by
  intro a b htg
  induction htg with
  | single hedge => exact hg _ _ hedge
  | tail _ hedge _ => exact hg _ _ hedge

/-- C2: `CheckForeignKeyCycles` returns `true` exactly when the database's
foreign-key graph contains a (directed, nonempty) cycle — including a
single table referencing itself and cycles in disconnected components —
and `GenerateSQLScript` then raises the foreign-key-cycle error instead of
returning a script, while on every acyclic database the check returns
`false` and a script is produced. -/
theorem C2_cycle_detection (db : SQLDatabase) :
    (db.CheckForeignKeyCycles = true ↔ db.HasForeignKeyCycle)
    ∧ (db.HasForeignKeyCycle →
        db.GenerateSQLScript = Except.error DBError.foreignKeyCycle)
    ∧ (¬db.HasForeignKeyCycle →
        db.GenerateSQLScript = Except.ok (String.intercalate "\n\n"
          (db.GenerateCreationOrder.map (fun t => t.GetCreateTableSQL)
            ++ db.GenerateCreationOrder.flatMap (fun t => t.GetCreateIndexSQLs)))) := by
  have hiff : db.CheckForeignKeyCycles = true ↔ db.HasForeignKeyCycle := by
    constructor
    · intro h
      exact checkRoots_true_cycle (fkGraph db) (db.tables.map (fun t => t.name))
        (fun a b hb => fkGraph_mem hb) db.tables.length db.tables []
        (fun t ht => List.mem_map.mpr ⟨t, ht, rfl⟩)
        (nodeBound_init_le db)
        h
    · intro hcyc
      cases hb : db.CheckForeignKeyCycles with
      | true => rfl
      | false =>
        exfalso
        obtain ⟨w, r, hNLw, hgood⟩ := cfkc_false_rank db hb
        obtain ⟨n, htg⟩ := hcyc
        have hnNL : n ∈ db.tables.map (fun t => t.name) :=
          transGen_mem_NL (fun a b hb => fkGraph_mem hb) htg
        have hnw : n ∈ w := by
          obtain ⟨t, ht, rfl⟩ := List.mem_map.mp hnNL
          exact hNLw t ht
        obtain ⟨-, hlt⟩ := transGen_rank_lt hgood htg hnw
        exact lt_irrefl _ hlt
  refine ⟨hiff, ?_, ?_⟩
  · intro hcyc
    unfold SQLDatabase.GenerateSQLScript
    rw [hiff.mpr hcyc]
    rfl
  · intro hacyc
    have hfalse : db.CheckForeignKeyCycles = false := by
      cases hb : db.CheckForeignKeyCycles with
      | true => exact absurd (hiff.mp hb) hacyc
      | false => rfl
    unfold SQLDatabase.GenerateSQLScript
    rw [hfalse]
    rfl

/-- C2 witness: a self-referencing table and a disconnected two-table cycle
are both detected and block script generation. -/
theorem C2_witness :
    dbSelf.CheckForeignKeyCycles = true
    ∧ dbSelf.GenerateSQLScript = Except.error DBError.foreignKeyCycle
    ∧ dbDisc.CheckForeignKeyCycles = true
    ∧ dbDisc.GenerateSQLScript = Except.error DBError.foreignKeyCycle
    ∧ dbPU.CheckForeignKeyCycles = false := by
  have hself : dbSelf.HasForeignKeyCycle :=
    ⟨"s", Relation.TransGen.single (show "s" ∈ fkGraph dbSelf "s" by decide)⟩
  have hdisc : dbDisc.HasForeignKeyCycle :=
    ⟨"cycA", Relation.TransGen.tail
      (Relation.TransGen.single (show "cycB" ∈ fkGraph dbDisc "cycA" by decide))
      (show "cycA" ∈ fkGraph dbDisc "cycB" by decide)⟩
  refine ⟨(C2_cycle_detection dbSelf).1.mpr hself,
    (C2_cycle_detection dbSelf).2.1 hself,
    (C2_cycle_detection dbDisc).1.mpr hdisc,
    (C2_cycle_detection dbDisc).2.1 hdisc, ?_⟩
  cases hb : dbPU.CheckForeignKeyCycles with
  | false => rfl
  | true =>
    exfalso
    have := (C2_cycle_detection dbPU).1.mp hb
    obtain ⟨n, htg⟩ := this
    have hnNL : n ∈ dbPU.tables.map (fun t => t.name) :=
      transGen_mem_NL (fun a b hb => fkGraph_mem hb) htg
    obtain ⟨w, r, hNLw, hgood⟩ := cfkc_false_rank dbPU (by decide)
    have hnw : n ∈ w := by
      obtain ⟨t, ht, rfl⟩ := List.mem_map.mp hnNL
      exact hNLw t ht
    obtain ⟨-, hlt⟩ := transGen_rank_lt hgood htg hnw
    exact lt_irrefl _ hlt

/-- C3 counterexample: a database with a dangling foreign-key reference
(`a` references the absent table `missing`) passes `GenerateSQLScript`
without error — a script is returned — even though `ValidateStructure`
rejects the same database with a dangling-reference error. -/
theorem C3_counterexample :
    dbDangling.hasTable "missing" = false
    ∧ dbDangling.CheckForeignKeyCycles = false
    ∧ (dbDangling.GenerateSQLScript).isOk = true
    ∧ dbDangling.ValidateStructure =
        Except.error (DBError.danglingForeignKey "a" "missing") := by
  refine ⟨by decide, by decide, by decide, by decide⟩

/-- C3 amended: `GenerateSQLScript` performs only the foreign-key-cycle
check before emitting — it does not call `ValidateStructure`.  Whenever
the cycle check passes, a script is returned even if a foreign key's
`ref_table` is dangling; only `ValidateStructure` reports the dangling
reference. -/
theorem C3_script_only_checks_cycles (db : SQLDatabase) :
    (db.CheckForeignKeyCycles = false → ∃ s, db.GenerateSQLScript = Except.ok s)
    ∧ (db.CheckForeignKeyCycles = false →
        (∃ t ∈ db.tables, ∃ fk ∈ t.foreign_keys, db.hasTable fk.ref_table = false) →
        (∃ pr : String × String,
          db.ValidateStructure = Except.error (DBError.danglingForeignKey pr.1 pr.2))
        ∧ ∃ s, db.GenerateSQLScript = Except.ok s) := by
  have hscript : db.CheckForeignKeyCycles = false →
      ∃ s, db.GenerateSQLScript = Except.ok s := by
    intro h
    unfold SQLDatabase.GenerateSQLScript
    rw [h]
    exact ⟨_, rfl⟩
  refine ⟨hscript, ?_⟩
  intro h hdang
  refine ⟨?_, hscript h⟩
  rcases hfs : db.tables.findSome? (fun t => t.foreign_keys.findSome? (fun fk =>
      if !db.hasTable fk.ref_table then some (t.name, fk.ref_table) else none)) with
    _ | pr
  · exfalso
    obtain ⟨t, ht, fk, hfk, hmiss⟩ := hdang
    have hall := List.findSome?_eq_none_iff.mp hfs t ht
    have hall2 := List.findSome?_eq_none_iff.mp hall fk hfk
    rw [hmiss] at hall2
    simp at hall2
  · refine ⟨pr, ?_⟩
    unfold SQLDatabase.ValidateStructure
    rw [h, hfs]
    rfl

/-- C3 witness: the dangling-reference database still yields a script. -/
theorem C3_witness : (dbDangling.GenerateSQLScript).isOk = true := by
  obtain ⟨s, hs⟩ := (C3_script_only_checks_cycles dbDangling).1 (by decide)
  rw [hs]
  rfl

/- ### Kahn's algorithm: supporting lemmas -/

theorem contains_eq_decide_mem (l : List String) (a : String) :
    l.contains a = decide (a ∈ l) := by
  by_cases h : a ∈ l
  · rw [decide_eq_true h]
    rw [List.contains_eq_any_beq, List.any_eq_true]
    exact ⟨a, h, by simp⟩
  · rw [decide_eq_false h]
    rw [List.contains_eq_any_beq]
    cases hc : l.any (fun x => a == x) with
    | false => rfl
    | true =>
      obtain ⟨x, hx, he⟩ := List.any_eq_true.mp hc
      exact absurd (beq_iff_eq.mp he ▸ hx) h

theorem countP_not_mem_snoc (refs S : List String) (tn : String) (htn : tn ∉ S) :
    refs.countP (fun x => !S.contains x)
      = refs.countP (fun x => !(S ++ [tn]).contains x)
        + refs.countP (fun x => x == tn) := by
  induction refs with
  | nil => rfl
  | cons a l ih =>
    simp only [List.countP_cons, contains_eq_decide_mem, List.mem_append,
      List.mem_singleton] at ih ⊢
    by_cases h1 : a ∈ S
    · have h2 : ¬(a == tn) = true := by
        simp only [beq_iff_eq]
        exact fun hc => htn (hc ▸ h1)
      simp only [decide_eq_true h1, decide_eq_true (Or.inl h1 : a ∈ S ∨ a = tn)]
      simp [h2, ih]
    · by_cases h2 : a = tn
      · simp only [decide_eq_false h1, decide_eq_true (Or.inr h2 : a ∈ S ∨ a = tn)]
        simp [h2, ih]
        omega
      · have h3 : ¬(a ∈ S ∨ a = tn) := by
          rintro (hc | hc)
          · exact h1 hc
          · exact h2 hc
        simp only [decide_eq_false h1, decide_eq_false h3]
        have h4 : ¬(a == tn) = true := by
          simp only [beq_iff_eq]
          exact h2
        simp [h4, ih]
        omega

theorem pending_snoc (S : List String) (tn : String) (htn : tn ∉ S) (u : SQLTable) :
    u.pending S = u.pending (S ++ [tn]) + u.countFksTo tn := by
  unfold SQLTable.pending SQLTable.countFksTo
  have h := countP_not_mem_snoc (u.foreign_keys.map (fun fk => fk.ref_table)) S tn htn
  simpa [List.countP_map, Function.comp] using h

theorem pending_eq_zero_iff (S : List String) (u : SQLTable) :
    u.pending S = 0 ↔ ∀ fk ∈ u.foreign_keys, fk.ref_table ∈ S := by
  unfold SQLTable.pending
  rw [List.countP_eq_zero]
  constructor
  · intro h fk hfk
    have := h fk hfk
    simp only [contains_eq_decide_mem, Bool.not_eq_true, decide_eq_false_iff_not,
      not_not] at this
    simpa using this
  · intro h fk hfk
    simp [contains_eq_decide_mem, h fk hfk]

/-- With unique table names, `GetTable` finds precisely the table itself. -/
theorem GetTable_self {db : SQLDatabase}
    (hnd : (db.tables.map (fun t => t.name)).Nodup) {u : SQLTable}
    (hu : u ∈ db.tables) : db.GetTable u.name = some u := by
  unfold SQLDatabase.GetTable
  have hinj := List.inj_on_of_nodup_map hnd
  rcases hf : db.tables.find? (fun t => t.name = u.name) with _ | v
  · exfalso
    have := List.find?_eq_none.mp hf u hu
    simp at this
  · have hvmem := List.mem_of_find?_eq_some hf
    have hvp := List.find?_some hf
    simp only [decide_eq_true_eq] at hvp
    rw [hf, hinj hvmem hu hvp]

/-- With unique table names, the multiplicity of `u.name` under key `r` in
the dependency graph is the number of `u`'s foreign keys referencing `r`. -/
theorem count_fkGraph {db : SQLDatabase}
    (hnd : (db.tables.map (fun t => t.name)).Nodup) {u : SQLTable}
    (hu : u ∈ db.tables) (r : String) :
    (fkGraph db r).count u.name = u.countFksTo r := by
  unfold fkGraph SQLTable.countFksTo
  have hinj := List.inj_on_of_nodup_map hnd
  rw [List.count_eq_countP, List.countP_flatMap]
  have hterm : ∀ v ∈ db.tables,
      (List.countP (fun x => x == u.name) ∘ fun t =>
        (t.foreign_keys.filter (fun fk => fk.ref_table = r)).map (fun _ => t.name)) v
      = (fun w => if w = u then u.foreign_keys.countP (fun fk => fk.ref_table == r)
          else 0) v := by
    intro v hv
    simp only [Function.comp]
    rw [List.countP_map]
    by_cases hvu : v = u
    · subst hvu
      rw [if_pos rfl]
      have hpred : ((fun x => x == v.name) ∘ (fun (_ : ForeignKey) => v.name))
          = fun _ => true := by
        funext fk
        simp [Function.comp]
      rw [hpred, List.countP_true, ← List.countP_eq_length_filter]
      apply List.countP_congr
      intro fk _
      simp
    · rw [if_neg hvu, List.countP_eq_zero]
      intro x hx
      simp only [Function.comp, beq_iff_eq]
      exact fun he => hvu (hinj hv hu he)
  rw [List.map_congr_left hterm]
  have hnodup : db.tables.Nodup := List.Nodup.of_map _ hnd
  obtain ⟨l₁, l₂, heq⟩ := List.append_of_mem hu
  rw [heq]
  rw [heq] at hnodup
  have h1 : u ∉ l₁ := fun hc =>
    (List.nodup_append.mp hnodup).2.2 hc (List.mem_cons_self _ _)
  have h2 : u ∉ l₂ := (List.nodup_cons.mp (List.nodup_append.mp hnodup).2.1).1
  rw [List.map_append, List.map_cons, List.sum_append, List.sum_cons, if_pos rfl]
  have hz1 : (l₁.map (fun w => if w = u then
      u.foreign_keys.countP (fun fk => fk.ref_table == r) else 0)).sum = 0 := by
    apply List.sum_eq_zero
    intro x hx
    obtain ⟨v, hv, rfl⟩ := List.mem_map.mp hx
    rw [if_neg (show ¬v = u from fun hc => h1 (hc ▸ hv))]
  have hz2 : (l₂.map (fun w => if w = u then
      u.foreign_keys.countP (fun fk => fk.ref_table == r) else 0)).sum = 0 := by
    apply List.sum_eq_zero
    intro x hx
    obtain ⟨v, hv, rfl⟩ := List.mem_map.mp hx
    rw [if_neg (show ¬v = u from fun hc => h2 (hc ▸ hv))]
  rw [hz1, hz2]
  omega

/-- With unique table names, the initial in-degree of a table is its number
of foreign keys. -/
theorem initialInDegree_eq {db : SQLDatabase}
    (hnd : (db.tables.map (fun t => t.name)).Nodup) {u : SQLTable}
    (hu : u ∈ db.tables) :
    db.initialInDegree u.name = (u.foreign_keys.length : Int) := by
  unfold SQLDatabase.initialInDegree
  have hinj := List.inj_on_of_nodup_map hnd
  have hfe : db.tables.filter (fun t => t.name = u.name) = [u] := by
    have hnodup : db.tables.Nodup := List.Nodup.of_map _ hnd
    obtain ⟨l₁, l₂, heq⟩ := List.append_of_mem hu
    rw [heq]
    rw [heq] at hnodup
    have h1 : u ∉ l₁ := fun hc =>
      (List.nodup_append.mp hnodup).2.2 hc (List.mem_cons_self _ _)
    have h2 : u ∉ l₂ := (List.nodup_cons.mp (List.nodup_append.mp hnodup).2.1).1
    have hf1 : l₁.filter (fun t => t.name = u.name) = [] := by
      rw [List.filter_eq_nil_iff]
      intro v hv
      simp only [decide_eq_true_eq]
      intro he
      exact h1 (hinj (heq ▸ List.mem_append.mpr (Or.inl hv)) hu he ▸ hv)
    have hf2 : l₂.filter (fun t => t.name = u.name) = [] := by
      rw [List.filter_eq_nil_iff]
      intro v hv
      simp only [decide_eq_true_eq]
      intro he
      exact h2 (hinj (heq ▸ List.mem_append.mpr (Or.inr (List.mem_cons_of_mem _ hv)))
        hu he ▸ hv)
    rw [List.filter_append, hf1, List.filter_cons_of_pos (by simp), hf2]
    rfl
  rw [hfe]
  simp

/-- Invariant (e) forces every emitted table's pending count to zero. -/
theorem sorted_pending_zero {sorted : List SQLTable}
    (he : ∀ i : Fin sorted.length, ∀ fk ∈ (sorted.get i).foreign_keys,
      fk.ref_table ∈ (sorted.take i).map (fun t => t.name)) :
    ∀ u ∈ sorted, u.pending (sorted.map (fun t => t.name)) = 0 := by
  intro u hu
  obtain ⟨i, hi⟩ := List.mem_iff_get.mp hu
  rw [pending_eq_zero_iff]
  intro fk hfk
  have := he i fk (hi ▸ hfk)
  have hsub : ((sorted.take i).map (fun t => t.name)) ⊆ sorted.map (fun t => t.name) := by
    intro x hx
    obtain ⟨v, hv, rfl⟩ := List.mem_map.mp hx
    exact List.mem_map.mpr ⟨v, List.mem_of_mem_take hv, rfl⟩
  exact hsub this

theorem zPot_mono {db : SQLDatabase} {indeg indeg' : String → Int}
    (h : ∀ n, indeg' n ≤ indeg n) : zPot db indeg' ≤ zPot db indeg := by
  apply Finset.card_le_card
  intro n hn
  obtain ⟨h1, h2⟩ := Finset.mem_filter.mp hn
  exact Finset.mem_filter.mpr ⟨h1, lt_of_lt_of_le h2 (h n)⟩

theorem zPot_strict {db : SQLDatabase} {indeg indeg' : String → Int} {d : String}
    (h : ∀ n, indeg' n ≤ indeg n) (hd1 : 0 < indeg d) (hd2 : indeg' d ≤ 0)
    (hdN : d ∈ db.tables.map (fun t => t.name)) :
    zPot db indeg' < zPot db indeg := by
  apply Finset.card_lt_card
  constructor
  · intro n hn
    obtain ⟨h1, h2⟩ := Finset.mem_filter.mp hn
    exact Finset.mem_filter.mpr ⟨h1, lt_of_lt_of_le h2 (h n)⟩
  · intro hsub
    have hmem : d ∈ (db.tables.map (fun t => t.name)).toFinset.filter
        (fun n => 0 < indeg n) :=
      Finset.mem_filter.mpr ⟨List.mem_toFinset.mpr hdN, hd1⟩
    have := Finset.mem_filter.mp (hsub hmem)
    omega

/-- A nonempty list of tables has a member of maximal rank. -/
theorem exists_max_rank (r : String → Nat) :
    ∀ (L : List SQLTable), L ≠ [] → ∃ m ∈ L, ∀ x ∈ L, r x.name ≤ r m.name := by
  intro L
  induction L with
  | nil => intro h; exact absurd rfl h
  | cons a l ih =>
    intro _
    by_cases hl : l = []
    · subst hl
      refine ⟨a, List.mem_cons_self _ _, ?_⟩
      intro x hx
      rcases List.mem_cons.mp hx with rfl | hx'
      · exact le_refl _
      · cases hx'
    · obtain ⟨m, hm, hmax⟩ := ih hl
      by_cases hcmp : r a.name ≤ r m.name
      · refine ⟨m, List.mem_cons_of_mem _ hm, ?_⟩
        intro x hx
        rcases List.mem_cons.mp hx with rfl | hx'
        · exact hcmp
        · exact hmax x hx'
      · refine ⟨a, List.mem_cons_self _ _, ?_⟩
        intro x hx
        rcases List.mem_cons.mp hx with rfl | hx'
        · exact le_refl _
        · exact le_trans (hmax x hx') (le_of_not_le hcmp)

/-- A successful `GetTable` lookup returns a member table of that name. -/
theorem GetTable_some {db : SQLDatabase} {d : String} {tb : SQLTable}
    (h : db.GetTable d = some tb) : tb ∈ db.tables ∧ tb.name = d := by
  unfold SQLDatabase.GetTable at h
  refine ⟨List.mem_of_find?_eq_some h, ?_⟩
  have := List.find?_some h
  simpa using this

/-- Unfolding equation for one step of the dependent-processing loop. -/
theorem processDependents_cons (db : SQLDatabase) (d : String) (rest : List String)
    (indeg : String → Int) (queue : List SQLTable) :
    processDependents db (d :: rest) indeg queue
      = processDependents db rest (fun x => if x = d then indeg x - 1 else indeg x)
        (if (if d = d then indeg d - 1 else indeg d) = 0 then
          match db.GetTable d with
          | some tb => queue ++ [tb]
          | none => queue
         else queue) := rfl

/-- Full specification of the dependent-processing loop: the in-degree map
drops pointwise by the multiplicity in the processed list, and the queue is
extended by exactly the tables whose in-degree passes through zero. -/
theorem processDependents_spec (db : SQLDatabase) :
    ∀ (ds : List String) (indeg : String → Int) (queue : List SQLTable),
      (∀ n, (processDependents db ds indeg queue).1 n = indeg n - ds.count n)
      ∧ ∃ enq, (processDependents db ds indeg queue).2 = queue ++ enq
        ∧ (∀ u ∈ enq, u ∈ db.tables ∧ db.GetTable u.name = some u
            ∧ 0 < indeg u.name ∧ indeg u.name - ds.count u.name ≤ 0)
        ∧ (∀ n tb, 0 < indeg n → indeg n - ds.count n ≤ 0 →
            db.GetTable n = some tb → tb ∈ enq)
        ∧ (enq.map (fun t => t.name)).Nodup := by
  intro ds
  induction ds with
  | nil =>
    intro indeg queue
    refine ⟨fun n => by simp [processDependents], [], by simp [processDependents], ?_, ?_, List.nodup_nil⟩
    · intro u hu; cases hu
    · intro n tb h1 h2 _
      simp only [List.count_nil] at h2
      omega
  | cons d rest ih =>
    intro indeg queue
    rw [processDependents_cons]
    have hdd : (if d = d then indeg d - 1 else indeg d) = indeg d - 1 := if_pos rfl
    rw [hdd]
    set indeg' : String → Int := fun x => if x = d then indeg x - 1 else indeg x with hindeg'
    have hcount : ∀ n, (d :: rest).count n
        = rest.count n + (if n = d then 1 else 0) := by
      intro n
      rw [List.count_cons]
      by_cases hnd : n = d
      · simp [hnd]
      · have hdn : ¬d = n := fun h => hnd h.symm
        simp [hnd, hdn, beq_iff_eq]
    have hindeg_pt : ∀ n, indeg' n = indeg n - (if n = d then 1 else 0) := by
      intro n
      by_cases hnd : n = d
      · simp [hindeg', hnd]
      · simp [hindeg', hnd]
    have hfst : ∀ (q : List SQLTable) (n : String),
        (processDependents db rest indeg' q).1 n = indeg n - (d :: rest).count n := by
      intro q n
      rw [(ih indeg' q).1 n, hindeg_pt, hcount]
      push_cast
      omega
    by_cases hz : indeg d - 1 = 0
    · rw [if_pos hz]
      cases hget : db.GetTable d with
      | some tb =>
        obtain ⟨h1, ⟨enq₀, hq, hE1, hE2, hE3⟩⟩ := ih indeg' (queue ++ [tb])
        refine ⟨hfst _, tb :: enq₀, ?_, ?_, ?_, ?_⟩
        · rw [hq, List.append_assoc]
          rfl
        · intro u hu
          rcases List.mem_cons.mp hu with rfl | hu'
          · obtain ⟨hmem, hname⟩ := GetTable_some hget
            refine ⟨hmem, by rw [hname]; exact hget, ?_, ?_⟩
            · rw [hname]; omega
            · rw [hname, hcount]
              simp only [if_pos rfl]
              have hcn : (0 : Int) ≤ (rest.count d : Int) := Int.natCast_nonneg _
              push_cast
              omega
          · obtain ⟨hm, hg, hpos, hle⟩ := hE1 u hu'
            rw [hindeg_pt] at hpos hle
            refine ⟨hm, hg, by omega, ?_⟩
            rw [hcount]
            push_cast at hle ⊢
            omega
        · intro n tb' hpos hle hget'
          by_cases hnd : n = d
          · rw [hnd] at hget'
            rw [hget'] at hget
            exact List.mem_cons.mpr (Or.inl (Option.some_inj.mp hget))
          · refine List.mem_cons.mpr (Or.inr (hE2 n tb' ?_ ?_ hget'))
            · rw [hindeg_pt]; simp [hnd]; omega
            · rw [hindeg_pt]
              rw [hcount] at hle
              simp only [if_neg hnd] at hle ⊢
              push_cast at hle ⊢
              omega
        · rw [List.map_cons]
          refine List.nodup_cons.mpr ⟨?_, hE3⟩
          intro hc
          obtain ⟨u', hu', hun'⟩ := List.mem_map.mp hc
          obtain ⟨-, -, hpos, -⟩ := hE1 u' hu'
          obtain ⟨-, hname⟩ := GetTable_some hget
          rw [hun', hname] at hpos
          simp only [hindeg', if_pos rfl] at hpos
          omega
      | none =>
        obtain ⟨h1, ⟨enq₀, hq, hE1, hE2, hE3⟩⟩ := ih indeg' queue
        refine ⟨hfst _, enq₀, hq, ?_, ?_, hE3⟩
        · intro u hu
          obtain ⟨hm, hg, hpos, hle⟩ := hE1 u hu
          rw [hindeg_pt] at hpos hle
          refine ⟨hm, hg, by omega, ?_⟩
          rw [hcount]
          push_cast at hle ⊢
          omega
        · intro n tb' hpos hle hget'
          by_cases hnd : n = d
          · rw [hnd] at hget'
            rw [hget'] at hget
            cases hget
          · refine hE2 n tb' ?_ ?_ hget'
            · rw [hindeg_pt]; simp [hnd]; omega
            · rw [hindeg_pt]
              rw [hcount] at hle
              simp only [if_neg hnd] at hle ⊢
              push_cast at hle ⊢
              omega
    · rw [if_neg hz]
      obtain ⟨h1, ⟨enq₀, hq, hE1, hE2, hE3⟩⟩ := ih indeg' queue
      refine ⟨hfst _, enq₀, hq, ?_, ?_, hE3⟩
      · intro u hu
        obtain ⟨hm, hg, hpos, hle⟩ := hE1 u hu
        rw [hindeg_pt] at hpos hle
        refine ⟨hm, hg, by omega, ?_⟩
        rw [hcount]
        push_cast at hle ⊢
        omega
      · intro n tb' hpos hle hget'
        by_cases hnd : n = d
        · have hz' : ¬indeg n - 1 = 0 := by rw [hnd]; exact hz
          refine hE2 n tb' ?_ ?_ hget'
          · rw [hindeg_pt]
            simp only [if_pos hnd]
            omega
          · rw [hindeg_pt]
            rw [hcount] at hle
            simp only [if_pos hnd] at hle ⊢
            push_cast at hle ⊢
            omega
        · refine hE2 n tb' ?_ ?_ hget'
          · rw [hindeg_pt]; simp [hnd]; omega
          · rw [hindeg_pt]
            rw [hcount] at hle
            simp only [if_neg hnd] at hle ⊢
            push_cast at hle ⊢
            omega

/-- The potential drops by at least the number of newly enqueued names. -/
theorem zPot_drop {db : SQLDatabase} {indeg indeg' : String → Int}
    (enqN : List String)
    (hmono : ∀ n, indeg' n ≤ indeg n)
    (hN : ∀ n ∈ enqN, n ∈ db.tables.map (fun t => t.name) ∧ 0 < indeg n ∧ indeg' n ≤ 0)
    (hnd : enqN.Nodup) :
    zPot db indeg' + enqN.length ≤ zPot db indeg := by
  unfold zPot
  have hT : enqN.toFinset
      ⊆ (db.tables.map (fun t => t.name)).toFinset.filter (fun n => 0 < indeg n) := by
    intro n hn
    obtain ⟨h1, h2, -⟩ := hN n (List.mem_toFinset.mp hn)
    exact Finset.mem_filter.mpr ⟨List.mem_toFinset.mpr h1, h2⟩
  have hsub : (db.tables.map (fun t => t.name)).toFinset.filter (fun n => 0 < indeg' n)
      ⊆ ((db.tables.map (fun t => t.name)).toFinset.filter (fun n => 0 < indeg n))
        \ enqN.toFinset := by
    intro n hn
    obtain ⟨h1, h2⟩ := Finset.mem_filter.mp hn
    refine Finset.mem_sdiff.mpr ⟨Finset.mem_filter.mpr ⟨h1, lt_of_lt_of_le h2 (hmono n)⟩, ?_⟩
    intro hc
    obtain ⟨-, -, h3⟩ := hN n (List.mem_toFinset.mp hc)
    omega
  have h4 := Finset.card_le_card hsub
  rw [Finset.card_sdiff hT] at h4
  have h5 := Finset.card_le_card hT
  have h6 : enqN.toFinset.card = enqN.length := List.toFinset_card_of_nodup hnd
  omega

/-- Appending a table all of whose targets are already emitted preserves the
strict-after property. -/
theorem strictAfter_snoc {sorted : List SQLTable} {t : SQLTable}
    (he : ∀ i : Fin sorted.length, ∀ fk ∈ (sorted.get i).foreign_keys,
      fk.ref_table ∈ (sorted.take i).map (fun u => u.name))
    (ht : ∀ fk ∈ t.foreign_keys, fk.ref_table ∈ sorted.map (fun u => u.name)) :
    ∀ i : Fin (sorted ++ [t]).length, ∀ fk ∈ ((sorted ++ [t]).get i).foreign_keys,
      fk.ref_table ∈ ((sorted ++ [t]).take i).map (fun u => u.name) := by
  intro i fk hfk
  have hlen : (sorted ++ [t]).length = sorted.length + 1 := by simp
  by_cases hi : (i : Nat) < sorted.length
  · have hget : (sorted ++ [t]).get i = sorted.get ⟨i, hi⟩ := by
      rw [List.get_eq_getElem, List.get_eq_getElem]
      exact List.getElem_append_left hi
    have htake : (sorted ++ [t]).take i = sorted.take i := by
      rw [List.take_append_eq_append_take]
      have h0 : (i : Nat) - sorted.length = 0 := by omega
      rw [h0]
      simp
    rw [htake]
    exact he ⟨i, hi⟩ fk (hget ▸ hfk)
  · have hieq : (i : Nat) = sorted.length := by
      have h2 := i.isLt
      simp only [List.length_append, List.length_singleton] at h2
      omega
    have hget : (sorted ++ [t]).get i = t := by
      rw [List.get_eq_getElem]
      rw [List.getElem_append_right (le_of_eq hieq.symm)]
      simp [hieq]
    have htake : (sorted ++ [t]).take i = sorted := by
      rw [List.take_append_eq_append_take, hieq]
      simp
    rw [htake]
    exact ht fk (hget ▸ hfk)

/-- One pop of the Kahn loop preserves the invariant and strictly decreases
the combined queue-plus-potential measure (after accounting for the pop). -/
theorem kahn_step {db : SQLDatabase}
    (hnd : (db.tables.map (fun t => t.name)).Nodup)
    {sorted rest : List SQLTable} {t : SQLTable} {indeg : String → Int}
    (hinv : KInv db sorted (t :: rest) indeg) :
    KInv db (sorted ++ [t]) (processDependents db (fkGraph db t.name) indeg rest).2
        (processDependents db (fkGraph db t.name) indeg rest).1
    ∧ (processDependents db (fkGraph db t.name) indeg rest).2.length
        + zPot db (processDependents db (fkGraph db t.name) indeg rest).1
      ≤ rest.length + zPot db indeg := by
  obtain ⟨ha, hb, hc, hd, he, hf⟩ := hinv
  obtain ⟨h1, enq, hq, hE1, hE2, hE3⟩ :=
    processDependents_spec db (fkGraph db t.name) indeg rest
  have hinj := List.inj_on_of_nodup_map hnd
  have ht_mem : t ∈ db.tables := hb t (List.mem_append.mpr (Or.inr (List.mem_cons_self _ _)))
  have htS : t.name ∉ sorted.map (fun u => u.name) := by
    intro hmem
    have hc' := hc
    rw [List.map_append] at hc'
    exact (List.nodup_append.mp hc').2.2 hmem
      (List.map_cons _ t rest ▸ List.mem_cons_self _ _)
  have hS' : (sorted ++ [t]).map (fun u => u.name)
      = sorted.map (fun u => u.name) ++ [t.name] := by simp
  have hsnoc : ∀ u : SQLTable,
      u.pending (sorted.map (fun v => v.name))
        = u.pending ((sorted ++ [t]).map (fun v => v.name)) + u.countFksTo t.name := by
    intro u
    rw [hS']
    exact pending_snoc _ _ htS u
  have hcountds : ∀ u ∈ db.tables,
      (fkGraph db t.name).count u.name = u.countFksTo t.name := by
    intro u hu
    exact count_fkGraph hnd hu t.name
  have ha' : ∀ u ∈ db.tables,
      (processDependents db (fkGraph db t.name) indeg rest).1 u.name
        = (u.pending ((sorted ++ [t]).map (fun v => v.name)) : Int) := by
    intro u hu
    rw [h1, hcountds u hu, ha u hu, hsnoc u]
    push_cast
    omega
  have hsortedzero := sorted_pending_zero he
  have hzero_names : ∀ u ∈ sorted ++ t :: rest,
      u.pending (sorted.map (fun v => v.name)) = 0 := by
    intro u hu
    rcases List.mem_append.mp hu with hus | huq
    · exact hsortedzero u hus
    · exact hd u huq
  have hdisj : ∀ u ∈ enq, ∀ v ∈ sorted ++ t :: rest, u.name ≠ v.name := by
    intro u hu v hv hne
    obtain ⟨humem, -, hpos, -⟩ := hE1 u hu
    have hveq : v = u := hinj (hb v hv) humem hne.symm
    have := hzero_names v hv
    rw [hveq] at this
    rw [ha u humem] at hpos
    omega
  have hreassoc : (sorted ++ [t]) ++ (rest ++ enq) = (sorted ++ t :: rest) ++ enq := by
    simp
  refine ⟨⟨?_, ?_, ?_, ?_, ?_, ?_⟩, ?_⟩
  · exact ha'
  · intro u hu
    rw [hq, hreassoc] at hu
    rcases List.mem_append.mp hu with hu1 | hu2
    · exact hb u hu1
    · exact (hE1 u hu2).1
  · rw [hq, hreassoc, List.map_append]
    refine List.nodup_append.mpr ⟨hc, hE3, ?_⟩
    intro a ha1 ha2
    obtain ⟨v, hv, rfl⟩ := List.mem_map.mp ha1
    obtain ⟨u, hu, hun⟩ := List.mem_map.mp ha2
    exact hdisj u hu v hv hun
  · intro u hu
    rw [hq] at hu
    rcases List.mem_append.mp hu with hur | hue
    · have h0 : u.pending (sorted.map (fun v => v.name)) = 0 :=
        hd u (List.mem_cons_of_mem _ hur)
      have := hsnoc u
      omega
    · obtain ⟨humem, -, hpos, hle⟩ := hE1 u hue
      rw [hcountds u humem, ha u humem] at hle
      have := hsnoc u
      omega
  · have htz : t.pending (sorted.map (fun v => v.name)) = 0 := hd t (List.mem_cons_self _ _)
    have htall : ∀ fk ∈ t.foreign_keys, fk.ref_table ∈ sorted.map (fun u => u.name) :=
      (pending_eq_zero_iff _ t).mp htz
    exact strictAfter_snoc he htall
  · intro u hu hp0
    rw [hq, hreassoc, List.map_append]
    by_cases hps : u.pending (sorted.map (fun v => v.name)) = 0
    · exact List.mem_append.mpr (Or.inl (hf u hu hps))
    · have hget := GetTable_self hnd hu
      have hpos : 0 < indeg u.name := by
        rw [ha u hu]
        omega
      have hle : indeg u.name - (fkGraph db t.name).count u.name ≤ 0 := by
        rw [ha u hu, hcountds u hu]
        have := hsnoc u
        omega
      have := hE2 u.name u hpos hle hget
      exact List.mem_append.mpr (Or.inr (List.mem_map.mpr ⟨u, this, rfl⟩))
  · rw [hq, List.length_append]
    have hdrop : zPot db (processDependents db (fkGraph db t.name) indeg rest).1
        + (enq.map (fun u => u.name)).length ≤ zPot db indeg := zPot_drop
      (enq.map (fun u => u.name))
      (fun n => by
        rw [h1]
        have : (0 : Int) ≤ ((fkGraph db t.name).count n : Int) := Int.natCast_nonneg _
        omega)
      (fun n hn => by
        obtain ⟨u, hu, rfl⟩ := List.mem_map.mp hn
        obtain ⟨humem, -, hpos, hle⟩ := hE1 u hu
        exact ⟨List.mem_map.mpr ⟨u, humem, rfl⟩, hpos, by rw [h1]; exact hle⟩)
      hE3
    rw [List.length_map] at hdrop
    omega

/-- The Kahn loop only ever appends to the already-emitted list. -/
theorem kahnLoop_extends (db : SQLDatabase) :
    ∀ (fuel : Nat) (sorted queue : List SQLTable) (indeg : String → Int),
      ∃ ext, kahnLoop db fuel sorted queue indeg = sorted ++ ext := by
  intro fuel
  induction fuel with
  | zero => intro sorted queue indeg; exact ⟨[], by simp [kahnLoop]⟩
  | succ f ih =>
    intro sorted queue indeg
    cases queue with
    | nil => exact ⟨[], by simp [kahnLoop]⟩
    | cons t rest =>
      obtain ⟨ext, hext⟩ := ih (sorted ++ [t])
        (processDependents db (fkGraph db t.name) indeg rest).2
        (processDependents db (fkGraph db t.name) indeg rest).1
      refine ⟨t :: ext, ?_⟩
      show kahnLoop db f (sorted ++ [t]) _ _ = _
      rw [hext]
      simp

/-- With enough fuel, the entire current queue is emitted, in order, before
anything enqueued later. -/
theorem kahnLoop_emits_prefix (db : SQLDatabase) :
    ∀ (q₁ : List SQLTable) (fuel : Nat) (sorted q₂ : List SQLTable) (indeg : String → Int),
      q₁.length < fuel →
      ∃ ext, kahnLoop db fuel sorted (q₁ ++ q₂) indeg = sorted ++ q₁ ++ ext := by
  intro q₁
  induction q₁ with
  | nil =>
    intro fuel sorted q₂ indeg _
    obtain ⟨ext, hext⟩ := kahnLoop_extends db fuel sorted q₂ indeg
    exact ⟨ext, by simpa using hext⟩
  | cons t q₁' ih =>
    intro fuel sorted q₂ indeg hlt
    cases fuel with
    | zero => omega
    | succ f =>
      have hq : (t :: q₁') ++ q₂ = t :: (q₁' ++ q₂) := rfl
      rw [hq]
      show ∃ ext, kahnLoop db f (sorted ++ [t])
        (processDependents db (fkGraph db t.name) indeg (q₁' ++ q₂)).2
        (processDependents db (fkGraph db t.name) indeg (q₁' ++ q₂)).1
        = sorted ++ (t :: q₁') ++ ext
      obtain ⟨-, enq, hq2, -, -, -⟩ :=
        processDependents_spec db (fkGraph db t.name) indeg (q₁' ++ q₂)
      rw [hq2, List.append_assoc q₁' q₂ enq]
      obtain ⟨ext, hext⟩ := ih f (sorted ++ [t]) (q₂ ++ enq)
        (processDependents db (fkGraph db t.name) indeg (q₁' ++ q₂)).1
        (by simp at hlt; omega)
      refine ⟨ext, ?_⟩
      rw [hext]
      simp

/-- Running the Kahn loop from an invariant state with sufficient fuel ends
with an empty queue and the invariant still holding. -/
theorem kahnLoop_run {db : SQLDatabase}
    (hnd : (db.tables.map (fun t => t.name)).Nodup) :
    ∀ (fuel : Nat) (sorted queue : List SQLTable) (indeg : String → Int),
      KInv db sorted queue indeg →
      queue.length + zPot db indeg < fuel →
      ∃ indeg', KInv db (kahnLoop db fuel sorted queue indeg) [] indeg' := by
  intro fuel
  induction fuel with
  | zero => intro sorted queue indeg _ h; omega
  | succ f ih =>
    intro sorted queue indeg hinv hlt
    cases queue with
    | nil =>
      refine ⟨indeg, ?_⟩
      show KInv db sorted [] indeg
      exact hinv
    | cons t rest =>
      obtain ⟨hinv', hmeas⟩ := kahn_step hnd hinv
      show ∃ indeg', KInv db (kahnLoop db f (sorted ++ [t])
        (processDependents db (fkGraph db t.name) indeg rest).2
        (processDependents db (fkGraph db t.name) indeg rest).1) [] indeg'
      refine ih (sorted ++ [t]) _ _ hinv' ?_
      have hlen : (t :: rest).length = rest.length + 1 := rfl
      rw [hlen] at hlt
      omega

/-- With no emitted targets, the pending count is the foreign-key count. -/
theorem pending_nil (u : SQLTable) : u.pending [] = u.foreign_keys.length := by
  unfold SQLTable.pending
  refine List.countP_eq_length.mpr ?_
  intro fk _
  simp [contains_eq_decide_mem]

/-- The invariant holds at the start of the Kahn loop. -/
theorem KInv_init {db : SQLDatabase}
    (hnd : (db.tables.map (fun t => t.name)).Nodup) :
    KInv db [] (db.tables.filter (fun t => db.initialInDegree t.name = 0))
      db.initialInDegree := by
  have hpn : ∀ u ∈ db.tables,
      db.initialInDegree u.name
        = (u.pending (([] : List SQLTable).map (fun t => t.name)) : Int) := by
    intro u hu
    rw [initialInDegree_eq hnd hu]
    simp [pending_nil]
  refine ⟨hpn, ?_, ?_, ?_, ?_, ?_⟩
  · intro u hu
    simp only [List.nil_append] at hu
    exact (List.mem_filter.mp hu).1
  · simp only [List.nil_append]
    exact List.Nodup.sublist (List.Sublist.map _ (List.filter_sublist _)) hnd
  · intro u hu
    have h0 := (List.mem_filter.mp hu).2
    simp only [decide_eq_true_eq] at h0
    have := hpn u (List.mem_filter.mp hu).1
    rw [h0] at this
    omega
  · intro i
    exact absurd i.isLt (by simp)
  · intro u hu hp
    simp only [List.nil_append]
    refine List.mem_map.mpr ⟨u, List.mem_filter.mpr ⟨hu, ?_⟩, rfl⟩
    have := hpn u hu
    rw [hp] at this
    simp [this]

/-- The chosen fuel strictly dominates the initial measure. -/
theorem fuel_bound (db : SQLDatabase) :
    (db.tables.filter (fun t => db.initialInDegree t.name = 0)).length
      + zPot db db.initialInDegree < 2 * db.tables.length + 1 := by
  have h1 : (db.tables.filter (fun t => db.initialInDegree t.name = 0)).length
      ≤ db.tables.length := List.length_filter_le _ _
  have h2 : zPot db db.initialInDegree ≤ db.tables.length := by
    unfold zPot
    calc ((db.tables.map (fun t => t.name)).toFinset.filter
          (fun n => 0 < db.initialInDegree n)).card
        ≤ (db.tables.map (fun t => t.name)).toFinset.card := Finset.card_filter_le _ _
      _ ≤ (db.tables.map (fun t => t.name)).length := (db.tables.map _).toFinset_card_le
      _ = db.tables.length := List.length_map _ _
  omega

/-- A final invariant state on an acyclic, resolved database contains every
table of the database. -/
theorem kahn_final_complete {db : SQLDatabase}
    (hnd : (db.tables.map (fun t => t.name)).Nodup) (hres : db.Resolved)
    (hacyc : ¬db.HasForeignKeyCycle) {r : List SQLTable} {indeg' : String → Int}
    (hinv : KInv db r [] indeg') : ∀ u ∈ db.tables, u ∈ r := by
  obtain ⟨ha, hb, hc, hd, he, hf⟩ := hinv
  have hinj := List.inj_on_of_nodup_map hnd
  have hcheck : db.CheckForeignKeyCycles = false := by
    cases h : db.CheckForeignKeyCycles with
    | false => rfl
    | true =>
      exact absurd (checkRoots_true_cycle (fkGraph db) (db.tables.map (fun t => t.name))
        (fun a b hb => fkGraph_mem hb) db.tables.length db.tables []
        (fun t ht => List.mem_map.mpr ⟨t, ht, rfl⟩)
        (nodeBound_init_le db) h) hacyc
  obtain ⟨w, rank, hNLw, hgood⟩ := cfkc_false_rank db hcheck
  have hname_mem : ∀ u ∈ db.tables, u.name ∈ r.map (fun v => v.name) → u ∈ r := by
    intro u hu hn
    obtain ⟨v, hv, hveq⟩ := List.mem_map.mp hn
    have hvdb : v ∈ db.tables := hb v (by simpa using hv)
    exact hinj hvdb hu hveq ▸ hv
  by_cases hL : db.tables.filter
      (fun u => decide (u.name ∉ r.map (fun v => v.name))) = []
  · intro u hu
    refine hname_mem u hu ?_
    by_contra hn
    have : u ∈ db.tables.filter (fun u => decide (u.name ∉ r.map (fun v => v.name))) :=
      List.mem_filter.mpr ⟨hu, by simp [hn]⟩
    rw [hL] at this
    cases this
  · exfalso
    obtain ⟨m, hmL, hmax⟩ := exists_max_rank rank _ hL
    obtain ⟨hmdb, hmn⟩ := List.mem_filter.mp hmL
    simp only [decide_eq_true_eq] at hmn
    have hp0 : m.pending (r.map (fun v => v.name)) = 0 := by
      rw [pending_eq_zero_iff]
      intro fk hfk
      obtain ⟨v, hv, hveq⟩ := List.mem_map.mp (hres m hmdb fk hfk)
      have hedge : gEdge (fkGraph db) fk.ref_table m.name := by
        unfold gEdge fkGraph
        exact List.mem_flatMap.mpr ⟨m, hmdb,
          List.mem_map.mpr ⟨fk, List.mem_filter.mpr ⟨hfk, by simp⟩, rfl⟩⟩
      have hrw : fk.ref_table ∈ w := hveq ▸ hNLw v hv
      obtain ⟨-, hlt⟩ := hgood fk.ref_table hrw m.name hedge
      by_contra hvn
      have hvL : v ∈ db.tables.filter
          (fun u => decide (u.name ∉ r.map (fun v => v.name))) :=
        List.mem_filter.mpr ⟨hv, by simp [hveq ▸ hvn]⟩
      have := hmax v hvL
      rw [hveq] at this
      omega
    have := hf m hmdb hp0
    simp only [List.append_nil] at this
    exact hmn this

/-- A `false` answer from the DFS check certifies acyclicity. -/
theorem cfkc_false_no_cycle {db : SQLDatabase}
    (h : db.CheckForeignKeyCycles = false) : ¬db.HasForeignKeyCycle := by
  intro hcyc
  obtain ⟨w, r, hNLw, hgood⟩ := cfkc_false_rank db h
  obtain ⟨n, htg⟩ := hcyc
  have hnNL : n ∈ db.tables.map (fun t => t.name) :=
    transGen_mem_NL (fun a b hb => fkGraph_mem hb) htg
  have hnw : n ∈ w := by
    obtain ⟨t, ht, rfl⟩ := List.mem_map.mp hnNL
    exact hNLw t ht
  obtain ⟨-, hlt⟩ := transGen_rank_lt hgood htg hnw
  exact lt_irrefl _ hlt

/-- C1 counterexample: in `dbTie`, tables `X` and `Y` have equal in-degree
(one each) and `X` was inserted before `Y`, yet the creation order used by
`GenerateSQLScript` emits `Y` before `X` — the FIFO queue breaks ties by
readiness order, not by original insertion order — so the stability part of
the claim fails on this acyclic, fully resolved database. -/
theorem C1_counterexample :
    dbTie.Resolved
    ∧ ¬dbTie.HasForeignKeyCycle
    ∧ dbTie.initialInDegree "X" = 1
    ∧ dbTie.initialInDegree "Y" = 1
    ∧ dbTie.tables = [tblX, tblY, tblA, tblB]
    ∧ dbTie.GenerateCreationOrder = [tblA, tblB, tblY, tblX] := by
  refine ⟨?_, cfkc_false_no_cycle (by decide), by decide, by decide, rfl, by decide⟩
  unfold SQLDatabase.Resolved
  decide

/-- C1 (amended): for every database with unique table names whose
foreign-key graph is acyclic and fully resolved, the creation order used by
`GenerateSQLScript` is a permutation of the tables in which every table
appears strictly after every table it declares a foreign key to, and the
tables with no foreign keys (in-degree zero) open the order in their
original insertion order; ties between tables that become ready later are
broken by queue-arrival order, not insertion order. -/
theorem C1_creation_order (db : SQLDatabase)
    (hnd : (db.tables.map (fun t => t.name)).Nodup)
    (hres : db.Resolved)
    (hacyc : ¬db.HasForeignKeyCycle) :
    db.GenerateCreationOrder.Perm db.tables
    ∧ (∀ i : Fin db.GenerateCreationOrder.length,
        ∀ fk ∈ (db.GenerateCreationOrder.get i).foreign_keys,
          fk.ref_table ∈ (db.GenerateCreationOrder.take i).map (fun t => t.name))
    ∧ ∃ restl, db.GenerateCreationOrder
        = db.tables.filter (fun t => t.foreign_keys.isEmpty) ++ restl := by
  obtain ⟨indeg', hfin⟩ := kahnLoop_run hnd (2 * db.tables.length + 1) []
    (db.tables.filter (fun t => db.initialInDegree t.name = 0)) db.initialInDegree
    (KInv_init hnd) (fuel_bound db)
  set r := kahnLoop db (2 * db.tables.length + 1) []
    (db.tables.filter (fun t => db.initialInDegree t.name = 0)) db.initialInDegree
    with hrdef
  have hgen : db.GenerateCreationOrder = r ++ db.tables.filter (fun t => t ∉ r) := by
    rw [hrdef]
    rfl
  have hall : ∀ u ∈ db.tables, u ∈ r := kahn_final_complete hnd hres hacyc hfin
  have hfilnil : db.tables.filter (fun t => t ∉ r) = [] := by
    rw [List.filter_eq_nil_iff]
    intro t ht
    simp [hall t ht]
  have horder : db.GenerateCreationOrder = r := by
    rw [hgen, hfilnil, List.append_nil]
  obtain ⟨ha, hb, hc, hd, he, hf⟩ := hfin
  refine ⟨?_, ?_, ?_⟩
  · rw [horder]
    have hrnd : r.Nodup := by
      have hcc := hc
      simp only [List.append_nil] at hcc
      exact List.Nodup.of_map _ hcc
    have hdnd : db.tables.Nodup := List.Nodup.of_map _ hnd
    rw [List.perm_ext_iff_of_nodup hrnd hdnd]
    intro u
    constructor
    · intro hu
      exact hb u (by simpa using hu)
    · intro hu
      exact hall u hu
  · rw [horder]
    exact he
  · have hq0len : (db.tables.filter
        (fun t => db.initialInDegree t.name = 0)).length
        < 2 * db.tables.length + 1 := by
      have := List.length_filter_le
        (fun t => decide (db.initialInDegree t.name = 0)) db.tables
      omega
    obtain ⟨ext, hext⟩ := kahnLoop_emits_prefix db
      (db.tables.filter (fun t => db.initialInDegree t.name = 0))
      (2 * db.tables.length + 1) [] [] db.initialInDegree hq0len
    rw [List.append_nil, List.nil_append, ← hrdef] at hext
    have hfiltercongr : db.tables.filter (fun t => db.initialInDegree t.name = 0)
        = db.tables.filter (fun t => t.foreign_keys.isEmpty) := by
      apply List.filter_congr
      intro t ht
      rw [initialInDegree_eq hnd ht]
      cases hfk : t.foreign_keys with
      | nil => simp [hfk]
      | cons a l =>
        simp
        omega
    refine ⟨ext, ?_⟩
    rw [horder, hext, hfiltercongr]

/-- C1 witness: on the spec's own scenario — `posts` references `users`,
inserted as `[posts, users]` — the amended theorem applies; the computed
order is `[users, posts]`, every table follows its targets, and the
zero-in-degree tables open the order. -/
theorem C1_witness :
    (dbPU.tables.map (fun t => t.name)).Nodup
    ∧ dbPU.GenerateCreationOrder = [tblUsers, tblPosts]
    ∧ (dbPU.GenerateCreationOrder.Perm dbPU.tables
      ∧ (∀ i : Fin dbPU.GenerateCreationOrder.length,
          ∀ fk ∈ (dbPU.GenerateCreationOrder.get i).foreign_keys,
            fk.ref_table ∈ (dbPU.GenerateCreationOrder.take i).map (fun t => t.name))
      ∧ ∃ restl, dbPU.GenerateCreationOrder
          = dbPU.tables.filter (fun t => t.foreign_keys.isEmpty) ++ restl) :=
  ⟨by decide, by decide, C1_creation_order dbPU (by decide)
    (by unfold SQLDatabase.Resolved; decide) (cfkc_false_no_cycle (by decide))⟩
